import Mathlib

/-!
Verification of the DOS 3.3 disk-image core (`disktools.py`): a shallow
embedding of the address translation, sector I/O, volume formatting,
free-sector allocation, catalog management, program writing and Applesoft
BASIC tokenization, together with theorems settling the specification's
claims about them.

Modelling conventions:
* the disk image buffer (a Python `bytearray` of 143360 bytes) is a
  function `Nat → Nat` from linear byte offset to byte value;
* sector payloads (Python `bytes`) are `List Nat`;
* strings are lists of character codes (`List Nat`); the string helpers
  (`upper`, `strip`, `rstrip`, `split`) model Python's behaviour on the
  ASCII range, which is the range the disk format and claims concern;
* fallible operations return `Except DiskErr _`; an error constructor
  corresponds to the Python exception (`ValueError`/`IOError`) raised at
  the same program point, and in the error case no modified disk is
  produced, matching the fact that the exception escapes before the
  object's buffer is (further) mutated;
* Python `while` loops over the catalog chain are embedded with an
  explicit fuel bounded by the sector count of the disk; the states the
  claims quantify over terminate well inside the fuel.
-/

set_option maxHeartbeats 4000000
set_option maxRecDepth 8000

/-- A disk image buffer: the byte stored at each linear offset. -/
abbrev Disk := Nat → Nat

/-- `ts_to_offset`: `(track * SECTORS_PER_TRACK + sector) * BYTES_PER_SECTOR`
with `SECTORS_PER_TRACK = 16`, `BYTES_PER_SECTOR = 256`. -/
def ts_to_offset (track sector : Nat) : Nat := (track * 16 + sector) * 256

/-- Errors raised by the Python code: `sectorTooLarge` is the
`ValueError` of `write_sector`, `diskFull` the `IOError` of
`allocate_sector`, `catalogFull` the `IOError` of `add_catalog_entry`,
`byteRange` the `ValueError` a `bytearray` item assignment raises for a
value outside 0..255 or an index beyond the buffer, and `fuelOut` is the
artificial out-of-fuel marker of the loop embeddings (never reached on
the states considered here). -/
inductive DiskErr
  | sectorTooLarge (n : Nat)
  | diskFull
  | catalogFull
  | byteRange
  | fuelOut
deriving DecidableEq

/-- `read_sector`: the 256-byte slice of the buffer at the translated
offset. -/
def read_sector (d : Disk) (t s : Nat) : List Nat :=
  (List.range 256).map (fun j => d (ts_to_offset t s + j))

/-- The successful branch of `write_sector`: bytes of the target sector
become `data` followed by zero padding; all other offsets are
untouched. -/
def writeSectorOk (d : Disk) (t s : Nat) (data : List Nat) : Disk :=
  fun i =>
    if ts_to_offset t s ≤ i ∧ i < ts_to_offset t s + 256 then
      (if i - ts_to_offset t s < data.length then data.getD (i - ts_to_offset t s) 0 else 0)
    else d i

/-- `write_sector`: raises `ValueError` when the payload exceeds 256
bytes (before touching the buffer), otherwise replaces the whole sector,
zero-padding the remainder. -/
def write_sector (d : Disk) (t s : Nat) (data : List Nat) : Except DiskErr Disk :=
  if 256 < data.length then .error (.sectorTooLarge data.length)
  else .ok (writeSectorOk d t s data)

/-! ### Basic byte-access lemmas -/

theorem getD_set_self (l : List Nat) (i v : Nat) (h : i < l.length) :
    (l.set i v).getD i 0 = v := by
  induction l generalizing i with
  | nil => simp at h
  | cons a l ih =>
    cases i with
    | zero => simp [List.set]
    | succ i => simpa [List.set] using ih i (by simpa using h)

theorem getD_set_ne (l : List Nat) (i j v : Nat) (h : i ≠ j) :
    (l.set i v).getD j 0 = l.getD j 0 := by
  induction l generalizing i j with
  | nil => simp [List.set]
  | cons a l ih =>
    cases i with
    | zero =>
      cases j with
      | zero => exact absurd rfl h
      | succ j => simp [List.set]
    | succ i =>
      cases j with
      | zero => simp [List.set]
      | succ j => simpa [List.set] using ih i j (by omega)

theorem getD_map_range (f : Nat → Nat) (n i : Nat) :
    ((List.range n).map f).getD i 0 = if i < n then f i else 0 := by
  induction n with
  | zero => simp
  | succ n ih =>
    rw [List.range_succ, List.map_append]
    rcases Nat.lt_trichotomy i n with h | h | h
    · rw [List.getD_append _ _ _ _ (by simpa using h)]
      simp [ih, h, Nat.lt_succ_of_lt h]
    · subst h
      rw [List.getD_append_right _ _ _ _ (by simp)]
      simp
    · rw [List.getD_append_right _ _ _ _ (by simp; omega)]
      have h2 : ¬ i < n + 1 := by omega
      simp only [List.length_map, List.length_range, h2, if_false]
      cases h3 : i - n with
      | zero => omega
      | succ k => simp

theorem read_sector_length (d : Disk) (t s : Nat) : (read_sector d t s).length = 256 := by
  simp [read_sector]

theorem read_sector_getD (d : Disk) (t s j : Nat) :
    (read_sector d t s).getD j 0 = if j < 256 then d (ts_to_offset t s + j) else 0 := by
  rw [read_sector, getD_map_range]

theorem ts_to_offset_ne {t s t' s' : Nat} (hs : s < 16) (hs' : s' < 16)
    (h : (t, s) ≠ (t', s')) : t * 16 + s ≠ t' * 16 + s' := by
  intro he
  apply h
  have : t = t' := by omega
  subst this
  have : s = s' := by omega
  simp [this]

theorem read_sector_write_ne (d : Disk) {t s t' s' : Nat} (data : List Nat)
    (hs : s < 16) (hs' : s' < 16) (hne : (t, s) ≠ (t', s')) :
    read_sector (writeSectorOk d t' s' data) t s = read_sector d t s := by
  apply List.map_congr_left
  intro j hj
  rw [List.mem_range] at hj
  have hoff := ts_to_offset_ne hs hs' hne
  simp only [writeSectorOk, ts_to_offset] at hoff ⊢
  rw [if_neg]
  omega

theorem read_sector_write_same (d : Disk) (t s : Nat) (data : List Nat)
    (h : data.length ≤ 256) :
    read_sector (writeSectorOk d t s data) t s =
      data ++ List.replicate (256 - data.length) 0 := by
  apply List.ext_getElem
  · simp [read_sector]
    omega
  · intro i h1 h2
    simp only [read_sector, List.getElem_map, List.getElem_range, writeSectorOk]
    simp only [read_sector, List.length_map, List.length_range] at h1
    rw [if_pos (by omega)]
    have hi : ts_to_offset t s + i - ts_to_offset t s = i := by omega
    rw [hi]
    rcases Nat.lt_or_ge i data.length with hlt | hge
    · rw [if_pos hlt, List.getElem_append_left hlt]
      exact List.getD_eq_getElem data 0 hlt
    · rw [if_neg (by omega), List.getElem_append_right hge]
      simp

theorem read_sector_write_same_full (d : Disk) (t s : Nat) (data : List Nat)
    (h : data.length = 256) :
    read_sector (writeSectorOk d t s data) t s = data := by
  rw [read_sector_write_same d t s data (by omega), h]
  simp

/-! ### Claims C7 and C8: the sector-write primitive -/

/-- C7: `write_sector` raises its size `ValueError` exactly when the
payload exceeds 256 bytes.  In this embedding the error branch returns
no disk at all — the rejection happens before `writeSectorOk` is even
formed, mirroring that the Python guard raises before any buffer
mutation — so the buffer some caller holds is the unchanged `d`. -/
theorem c7_write_sector_guard (d : Disk) (t s : Nat) (data : List Nat) :
    write_sector d t s data = .error (.sectorTooLarge data.length) ↔ 256 < data.length := by
  constructor
  · intro h
    by_contra hlen
    simp [write_sector, hlen] at h
  · intro h
    simp [write_sector, h]

/-- C8: for payloads of at most 256 bytes, `write_sector` succeeds, the
target sector becomes the payload followed by zero padding (a whole
sector replace, never a partial merge), and every byte outside the
sector's 256-byte range is unchanged. -/
theorem c8_write_sector_replace (d : Disk) (t s : Nat) (data : List Nat)
    (_ht : t < 35) (_hs : s < 16) (hlen : data.length ≤ 256) :
    ∃ d', write_sector d t s data = .ok d' ∧
      read_sector d' t s = data ++ List.replicate (256 - data.length) 0 ∧
      ∀ i, i < ts_to_offset t s ∨ ts_to_offset t s + 256 ≤ i → d' i = d i := by
  refine ⟨writeSectorOk d t s data, ?_, ?_, ?_⟩
  · simp [write_sector, Nat.not_lt.mpr hlen]
  · exact read_sector_write_same d t s data hlen
  · intro i hi
    simp only [writeSectorOk]
    rw [if_neg]
    omega

/-- Witness for C8 at a concrete input. -/
theorem c8_write_sector_replace_witness :
    (1 : Nat) < 35 ∧ (2 : Nat) < 16 ∧ ([9, 7] : List Nat).length ≤ 256 ∧
    (∃ d', write_sector (fun _ => 3) 1 2 [9, 7] = .ok d' ∧
      read_sector d' 1 2 = [9, 7] ++ List.replicate (256 - ([9, 7] : List Nat).length) 0 ∧
      ∀ i, i < ts_to_offset 1 2 ∨ ts_to_offset 1 2 + 256 ≤ i → d' i = (fun _ => (3 : Nat)) i) :=
  ⟨by decide, by decide, by decide,
    c8_write_sector_replace (fun _ => 3) 1 2 [9, 7] (by decide) (by decide) (by decide)⟩

/-! ### Volume formatting (`format`) -/

/-- The VTOC header fields `format` sets at fixed offsets before the
bitmap loop (all other bytes below 0x38 stay zero):
byte 0 = 4, bytes 1–2 = catalog head (17, 15), byte 3 = DOS version, byte
6 = volume number, 0x27 = 122 T/S pairs, 0x30 = 18 last allocated track,
0x31 = 1 direction, 0x34 = 35 tracks, 0x35 = 16 sectors, 0x36–0x37 =
256 little-endian. -/
def vtocHeader (vol i : Nat) : Nat :=
  if i = 0x00 then 0x04
  else if i = 0x01 then 17
  else if i = 0x02 then 15
  else if i = 0x03 then 0x03
  else if i = 0x06 then vol
  else if i = 0x27 then 122
  else if i = 0x30 then 18
  else if i = 0x31 then 1
  else if i = 0x34 then 35
  else if i = 0x35 then 16
  else if i = 0x36 then 0
  else if i = 0x37 then 1
  else 0

/-- Byte `i` of the VTOC sector written by `format`: header fields below
0x38, then the per-track free-sector bitmap, 4 bytes per track at
`0x38 + 4*track` (track 17 all zero = used; every other track
0xFF 0xFF 0x00 0x00 = 16 free sectors), zero beyond. -/
def vtocByte (vol i : Nat) : Nat :=
  if i < 0x38 then vtocHeader vol i
  else if i < 0x38 + 35 * 4 then
    (if (i - 0x38) / 4 = 17 then 0
     else if (i - 0x38) % 4 < 2 then 0xFF else 0)
  else 0

/-- The 256-byte VTOC sector `format` writes. -/
def vtocList (vol : Nat) : List Nat := (List.range 256).map (vtocByte vol)

/-- Byte `i` of the empty catalog sector `format` writes at (17, `sector`):
bytes 1–2 point at the next catalog sector ((17, sector-1), or (0,0) for
sector 1), everything else zero. -/
def catalogSectorByte (sector i : Nat) : Nat :=
  if i = 1 then (if 1 < sector then 17 else 0)
  else if i = 2 then (if 1 < sector then sector - 1 else 0)
  else 0

/-- The 256-byte empty catalog sector for (17, `sector`). -/
def catalogSectorList (sector : Nat) : List Nat :=
  (List.range 256).map (catalogSectorByte sector)

/-- The order `range(15, 0, -1)` in which `format` writes the catalog
sectors: 15, 14, …, 1. -/
def catalogInitSectors : List Nat := (List.range 15).map (fun k => 15 - k)

/-- `format`: zero the whole buffer, write the VTOC at (17,0), then write
the descending chain of empty catalog sectors (17,15) … (17,1). -/
def format (vol : Nat) : Disk :=
  catalogInitSectors.foldl
    (fun d s => writeSectorOk d 17 s (catalogSectorList s))
    (writeSectorOk (fun _ => 0) 17 0 (vtocList vol))

theorem vtocList_getD (vol i : Nat) :
    (vtocList vol).getD i 0 = if i < 256 then vtocByte vol i else 0 := by
  rw [vtocList, getD_map_range]

theorem catalogSectorList_getD (sector i : Nat) :
    (catalogSectorList sector).getD i 0 =
      if i < 256 then catalogSectorByte sector i else 0 := by
  rw [catalogSectorList, getD_map_range]

theorem vtocList_length (vol : Nat) : (vtocList vol).length = 256 := by simp [vtocList]

theorem catalogSectorList_length (s : Nat) : (catalogSectorList s).length = 256 := by
  simp [catalogSectorList]

/-- Evaluation of the bitmap region of the VTOC written by `format`. -/
theorem vtocByte_bitmap (vol t b : Nat) (ht : t < 35) (hb : b < 4) :
    vtocByte vol (0x38 + 4 * t + b) =
      if t = 17 then 0 else if b < 2 then 0xFF else 0 := by
  have h1 : ¬ (0x38 + 4 * t + b < 0x38) := by omega
  have h2 : 0x38 + 4 * t + b < 0x38 + 35 * 4 := by omega
  have h3 : (0x38 + 4 * t + b - 0x38) / 4 = t := by omega
  have h4 : (0x38 + 4 * t + b - 0x38) % 4 = b := by omega
  simp only [vtocByte, h1, if_false, h2, if_true, h3, h4]

theorem read_foldl_write_not_mem (d : Disk) (L : List Nat) (t s : Nat)
    (f : Nat → List Nat) (hs : s < 16) (hL : ∀ x ∈ L, x < 16)
    (h : ∀ x ∈ L, (t, s) ≠ (17, x)) :
    read_sector (L.foldl (fun d x => writeSectorOk d 17 x (f x)) d) t s =
      read_sector d t s := by
  induction L generalizing d with
  | nil => rfl
  | cons a L ih =>
    rw [List.foldl_cons, ih _ (fun x hx => hL x (List.mem_cons_of_mem a hx))
      (fun x hx => h x (List.mem_cons_of_mem a hx))]
    exact read_sector_write_ne d (f a) hs (hL a (List.mem_cons_self a L))
      (h a (List.mem_cons_self a L))

theorem read_foldl_write_mem (d : Disk) (L : List Nat) (s : Nat)
    (f : Nat → List Nat) (hs : s < 16) (hL : ∀ x ∈ L, x < 16)
    (hnd : L.Nodup) (hmem : s ∈ L) (hlen : (f s).length = 256) :
    read_sector (L.foldl (fun d x => writeSectorOk d 17 x (f x)) d) 17 s = f s := by
  induction L generalizing d with
  | nil => simp at hmem
  | cons a L ih =>
    rw [List.foldl_cons]
    rcases List.mem_cons.mp hmem with rfl | hmem'
    · have hnot : s ∉ L := (List.nodup_cons.mp hnd).1
      rw [read_foldl_write_not_mem _ _ _ _ _ hs
        (fun x hx => hL x (List.mem_cons_of_mem s hx))
        (fun x hx => by simp; intro he; exact absurd (he ▸ hx) hnot)]
      exact read_sector_write_same_full d 17 s (f s) hlen
    · exact ih _ (fun x hx => hL x (List.mem_cons_of_mem a hx))
        (List.nodup_cons.mp hnd).2 hmem'

theorem catalogInitSectors_eq :
    catalogInitSectors = [15, 14, 13, 12, 11, 10, 9, 8, 7, 6, 5, 4, 3, 2, 1] := by
  decide

theorem read_format_vtoc (vol : Nat) :
    read_sector (format vol) 17 0 = vtocList vol := by
  rw [format, read_foldl_write_not_mem _ _ _ _ _ (by omega)
    (by rw [catalogInitSectors_eq]; decide)
    (by rw [catalogInitSectors_eq]; decide)]
  exact read_sector_write_same_full _ 17 0 _ (vtocList_length vol)

theorem read_format_catalog (vol s : Nat) (h1 : 1 ≤ s) (h2 : s ≤ 15) :
    read_sector (format vol) 17 s = catalogSectorList s := by
  rw [format, read_foldl_write_mem _ _ _ _ (by omega)
    (by rw [catalogInitSectors_eq]; decide)
    (by rw [catalogInitSectors_eq]; decide)
    (by rw [catalogInitSectors_eq]; simp; omega)
    (catalogSectorList_length s)]

theorem read_format_other (vol t s : Nat) (hs : s < 16) (ht : t ≠ 17) :
    read_sector (format vol) t s = List.replicate 256 0 := by
  rw [format, read_foldl_write_not_mem _ _ _ _ _ hs
    (by rw [catalogInitSectors_eq]; decide)
    (fun x _ => by simp [ht]),
    read_sector_write_ne _ _ hs (by omega) (by simp [ht])]
  simp [read_sector, List.map_const']

/-! ### Claim C4: the free-sector bitmap immediately after `format` -/

/-- C4: immediately after `format`, the four bitmap bytes of track 17
(at VTOC offset `0x38 + 4*17`) are all zero (fully used), and for every
other track `t < 35` they are 0xFF, 0xFF, 0x00, 0x00 (all 16 meaningful
bits free). -/
theorem c4_format_bitmap (vol t : Nat) (ht : t < 35) :
    [(read_sector (format vol) 17 0).getD (0x38 + 4 * t) 0,
     (read_sector (format vol) 17 0).getD (0x38 + 4 * t + 1) 0,
     (read_sector (format vol) 17 0).getD (0x38 + 4 * t + 2) 0,
     (read_sector (format vol) 17 0).getD (0x38 + 4 * t + 3) 0] =
      if t = 17 then [0, 0, 0, 0] else [0xFF, 0xFF, 0, 0] := by
  rw [read_format_vtoc]
  have e0 := vtocByte_bitmap vol t 0 ht (by omega)
  have e1 := vtocByte_bitmap vol t 1 ht (by omega)
  have e2 := vtocByte_bitmap vol t 2 ht (by omega)
  have e3 := vtocByte_bitmap vol t 3 ht (by omega)
  simp only [vtocList_getD, if_pos (show 0x38 + 4 * t < 256 by omega),
    if_pos (show 0x38 + 4 * t + 1 < 256 by omega),
    if_pos (show 0x38 + 4 * t + 2 < 256 by omega),
    if_pos (show 0x38 + 4 * t + 3 < 256 by omega)]
  rw [show 0x38 + 4 * t = 0x38 + 4 * t + 0 by omega] at e0 ⊢
  rw [e0, e1, e2, e3]
  by_cases h : t = 17 <;> simp [h]

/-- Witness for C4 at concrete inputs (track 17 and an ordinary track). -/
theorem c4_format_bitmap_witness :
    (17 : Nat) < 35 ∧ (3 : Nat) < 35 ∧
    [(read_sector (format 254) 17 0).getD (0x38 + 4 * 17) 0,
     (read_sector (format 254) 17 0).getD (0x38 + 4 * 17 + 1) 0,
     (read_sector (format 254) 17 0).getD (0x38 + 4 * 17 + 2) 0,
     (read_sector (format 254) 17 0).getD (0x38 + 4 * 17 + 3) 0] =
      (if (17 : Nat) = 17 then [0, 0, 0, 0] else [0xFF, 0xFF, 0, 0]) ∧
    [(read_sector (format 254) 17 0).getD (0x38 + 4 * 3) 0,
     (read_sector (format 254) 17 0).getD (0x38 + 4 * 3 + 1) 0,
     (read_sector (format 254) 17 0).getD (0x38 + 4 * 3 + 2) 0,
     (read_sector (format 254) 17 0).getD (0x38 + 4 * 3 + 3) 0] =
      (if (3 : Nat) = 17 then [0, 0, 0, 0] else [0xFF, 0xFF, 0, 0]) :=
  ⟨by decide, by decide, c4_format_bitmap 254 17 (by decide),
    c4_format_bitmap 254 3 (by decide)⟩

/-! ### Free-sector allocation (`allocate_sector`) -/

/-- The track search order of `allocate_sector`:
`list(range(18, 35)) + list(range(16, -1, -1))` = 18…34 then 16…0. -/
def trackOrder : List Nat := List.range' 18 17 ++ (List.range 17).reverse

/-- The 16-bit bitmap of a track as `allocate_sector` reads it from a
VTOC sector image: `vtoc[0x38+4t] | (vtoc[0x38+4t+1] << 8)`. -/
def bitmapOf (v : List Nat) (t : Nat) : Nat :=
  v.getD (0x38 + 4 * t) 0 ||| (v.getD (0x38 + 4 * t + 1) 0) <<< 8

/-- Models the Python `bitmap &= ~(1 << sector)` on arbitrary-precision
integers: clearing bit `s`, i.e. `b & ~m = b ^ (b & m)`. -/
def clearBit (b s : Nat) : Nat := b ^^^ (b &&& (1 <<< s))

/-- The VTOC image after `allocate_sector` marks (t, s) used: the two
bitmap bytes of track `t` are replaced by the cleared bitmap, low byte
then high byte. -/
def vtocUpdate (v : List Nat) (t s : Nat) : List Nat :=
  ((v.set (0x38 + 4 * t) (clearBit (bitmapOf v t) s &&& 0xFF)).set
    (0x38 + 4 * t + 1) ((clearBit (bitmapOf v t) s >>> 8) &&& 0xFF))

/-- The inner loop of `allocate_sector`: the first sector 0…15 whose
bitmap bit is set. -/
def sectorSearch (bm : Nat) : Option Nat :=
  (List.range 16).find? (fun s => bm &&& (1 <<< s) != 0)

/-- The track loop of `allocate_sector`: walk the track order, skip
track 17, and return the first track with a free sector together with
the updated VTOC image. -/
def searchTracks : List Nat → List Nat → Option ((Nat × Nat) × List Nat)
  | [], _ => none
  | t :: rest, v =>
    if t = 17 then searchTracks rest v
    else
      match sectorSearch (bitmapOf v t) with
      | some s => some ((t, s), vtocUpdate v t s)
      | none => searchTracks rest v

/-- `allocate_sector`: read the VTOC, search for a free sector in the
fixed order, clear its bit, write the VTOC back and return the
coordinates; raise `IOError("Disk full - no free sectors")` when
nothing is free. -/
def allocate_sector (d : Disk) : Except DiskErr ((Nat × Nat) × Disk) :=
  match searchTracks trackOrder (read_sector d 17 0) with
  | some (p, v') => .ok (p, writeSectorOk d 17 0 v')
  | none => .error .diskFull

/-- All (track, sector) pairs in the exact order `allocate_sector`
scans them: tracks 18…34 then 16…0 (17 skipped), sectors 0…15
ascending within a track. -/
def scanOrder : List (Nat × Nat) :=
  trackOrder.flatMap (fun t => (List.range 16).map (fun s => (t, s)))

/-- The free test `allocate_sector` applies to a pair, read off a VTOC
sector image: bit `s` of track `t`'s 16-bit bitmap. -/
def bitFreeP (v : List Nat) (p : Nat × Nat) : Bool :=
  bitmapOf v p.1 &&& (1 <<< p.2) != 0

theorem and_one_shift_ne (b s : Nat) : (b &&& (1 <<< s) != 0) = b.testBit s := by
  rw [Nat.one_shiftLeft, Nat.and_two_pow]
  cases h : b.testBit s
  · simp [h]
  · simp [h, (Nat.two_pow_pos s).ne']

theorem find?_sector_pairs (v : List Nat) (t : Nat) :
    ((List.range 16).map (fun s => (t, s))).find? (bitFreeP v) =
      (sectorSearch (bitmapOf v t)).map (fun s => (t, s)) := by
  rw [List.find?_map]
  rfl

theorem searchTracks_eq (L : List Nat) (v : List Nat) (h17 : 17 ∉ L) :
    searchTracks L v =
      ((L.flatMap (fun t => (List.range 16).map (fun s => (t, s)))).find? (bitFreeP v)).map
        (fun p => (p, vtocUpdate v p.1 p.2)) := by
  induction L with
  | nil => rfl
  | cons t rest ih =>
    have ht : t ≠ 17 := fun h => h17 (h ▸ List.mem_cons_self t rest)
    rw [searchTracks, if_neg ht, List.flatMap_cons, List.find?_append, find?_sector_pairs]
    cases hsearch : sectorSearch (bitmapOf v t) with
    | some s => rfl
    | none =>
      simp only [Option.map_none', Option.or]
      exact ih (fun h => h17 (List.mem_cons_of_mem t h))

theorem not_17_mem_trackOrder : 17 ∉ trackOrder := by decide

theorem allocate_sector_eq (d : Disk) :
    allocate_sector d =
      match (scanOrder.find? (bitFreeP (read_sector d 17 0))).map
          (fun p => (p, vtocUpdate (read_sector d 17 0) p.1 p.2)) with
      | some (p, v') => .ok (p, writeSectorOk d 17 0 v')
      | none => .error .diskFull := by
  rw [allocate_sector, searchTracks_eq trackOrder _ not_17_mem_trackOrder]
  rfl

theorem mem_trackOrder_iff (t : Nat) : t ∈ trackOrder ↔ t < 35 ∧ t ≠ 17 := by
  simp only [trackOrder, List.mem_append, List.mem_reverse, List.mem_range, List.mem_range']
  constructor
  · rintro (⟨i, hi, rfl⟩ | h) <;> omega
  · intro ⟨h1, h2⟩
    rcases Nat.lt_or_ge t 17 with h | h
    · right; omega
    · left; exact ⟨t - 18, by omega, by omega⟩

theorem mem_scanOrder_iff (p : Nat × Nat) :
    p ∈ scanOrder ↔ p.1 < 35 ∧ p.1 ≠ 17 ∧ p.2 < 16 := by
  cases p with
  | mk t s =>
    simp only [scanOrder, List.mem_flatMap, List.mem_map, List.mem_range, Prod.mk.injEq]
    constructor
    · rintro ⟨t', ht', s', hs', rfl, rfl⟩
      exact ⟨(mem_trackOrder_iff t').mp ht' |>.1, (mem_trackOrder_iff t').mp ht' |>.2, hs'⟩
    · rintro ⟨h1, h2, h3⟩
      exact ⟨t, (mem_trackOrder_iff t).mpr ⟨h1, h2⟩, s, h3, rfl, rfl⟩

/-! ### Claim C3: allocation returns the first free sector in scan order -/

/-- C3: whenever at least one sector outside track 17 is marked free in
the VTOC bitmap, `allocate_sector` succeeds and returns exactly the
first free pair of the fixed scan order (tracks 18…34 then 16…0 — track
17 always skipped — sectors 0…15 ascending within a track), and the
resulting disk is the input disk with precisely the updated VTOC (that
pair's bitmap bit cleared) written back at (17, 0). -/
theorem c3_alloc_first_free (d : Disk)
    (h : ∃ p ∈ scanOrder, bitFreeP (read_sector d 17 0) p) :
    ∃ p, scanOrder.find? (bitFreeP (read_sector d 17 0)) = some p ∧
      allocate_sector d =
        .ok (p, writeSectorOk d 17 0 (vtocUpdate (read_sector d 17 0) p.1 p.2)) := by
  have hsome : (scanOrder.find? (bitFreeP (read_sector d 17 0))).isSome := by
    rw [List.find?_isSome]
    exact h
  cases hfind : scanOrder.find? (bitFreeP (read_sector d 17 0)) with
  | none => rw [hfind] at hsome; simp at hsome
  | some p =>
    refine ⟨p, rfl, ?_⟩
    rw [allocate_sector_eq, hfind]
    rfl

/-- Witness for C3: a freshly formatted volume has free sector (18, 0). -/
theorem c3_alloc_first_free_witness :
    (∃ p ∈ scanOrder, bitFreeP (read_sector (format 254) 17 0) p) ∧
    ∃ p, scanOrder.find? (bitFreeP (read_sector (format 254) 17 0)) = some p ∧
      allocate_sector (format 254) =
        .ok (p, writeSectorOk (format 254) 17 0
          (vtocUpdate (read_sector (format 254) 17 0) p.1 p.2)) :=
  ⟨⟨(18, 0), by decide⟩, c3_alloc_first_free (format 254) ⟨(18, 0), by decide⟩⟩

/-! ### Bitmap bookkeeping for allocation sequences -/

theorem testBit_clearBit (b s j : Nat) :
    (clearBit b s).testBit j = (b.testBit j && !(decide (j = s))) := by
  simp only [clearBit, Nat.testBit_xor, Nat.testBit_and, Nat.one_shiftLeft,
    Nat.testBit_two_pow]
  by_cases h : s = j
  · subst h
    cases b.testBit s <;> simp
  · have h' : ¬ (j = s) := fun hh => h hh.symm
    simp [h, h']

theorem testBit_two_bytes (c s' : Nat) (hs' : s' < 16) :
    ((c &&& 0xFF) ||| ((c >>> 8) &&& 0xFF) <<< 8).testBit s' = c.testBit s' := by
  have h255 : ∀ j, (0xFF : Nat).testBit j = decide (j < 8) := by
    intro j
    have := Nat.testBit_two_pow_sub_one 8 j
    norm_num at this
    exact this
  simp only [Nat.testBit_or, Nat.testBit_and, Nat.testBit_shiftLeft, Nat.testBit_shiftRight,
    h255]
  rcases Nat.lt_or_ge s' 8 with h | h
  · have h1 : ¬ (s' ≥ 8) := by omega
    simp [h, h1]
  · have h1 : ¬ (s' < 8) := by omega
    have h2 : 8 + (s' - 8) = s' := by omega
    have h3 : s' - 8 < 8 := by omega
    simp [h, h1, h2, h3]

theorem vtocUpdate_length (v : List Nat) (t s : Nat) :
    (vtocUpdate v t s).length = v.length := by
  simp [vtocUpdate]

theorem bitmapOf_vtocUpdate_self (v : List Nat) (hv : v.length = 256) (t s : Nat)
    (ht : t < 35) :
    bitmapOf (vtocUpdate v t s) t =
      (clearBit (bitmapOf v t) s &&& 0xFF) |||
        ((clearBit (bitmapOf v t) s >>> 8) &&& 0xFF) <<< 8 := by
  rw [bitmapOf, vtocUpdate]
  rw [getD_set_ne _ _ _ _ (by omega), getD_set_self _ _ _ (by simp [hv]; omega),
    getD_set_self _ _ _ (by simp [hv]; omega)]

theorem bitmapOf_vtocUpdate_ne (v : List Nat) (t s t' : Nat) (hne : t' ≠ t) :
    bitmapOf (vtocUpdate v t s) t' = bitmapOf v t' := by
  rw [bitmapOf, vtocUpdate]
  rw [getD_set_ne _ _ _ _ (by omega), getD_set_ne _ _ _ _ (by omega),
    getD_set_ne _ _ _ _ (by omega), getD_set_ne _ _ _ _ (by omega)]
  rfl

theorem bitFreeP_vtocUpdate (v : List Nat) (hv : v.length = 256) (t s t' s' : Nat)
    (ht : t < 35) (hs' : s' < 16) :
    bitFreeP (vtocUpdate v t s) (t', s') =
      (bitFreeP v (t', s') && !(decide (t' = t) && decide (s' = s))) := by
  rw [bitFreeP, bitFreeP, and_one_shift_ne, and_one_shift_ne]
  by_cases hteq : t' = t
  · subst hteq
    rw [bitmapOf_vtocUpdate_self v hv t' s ht, testBit_two_bytes _ _ hs',
      testBit_clearBit]
    simp
  · rw [bitmapOf_vtocUpdate_ne v t s t' hteq]
    simp [hteq]

/-- All (track, sector) pairs of the 35×16 disk grid. -/
def gridPairs : Finset (Nat × Nat) := Finset.range 35 ×ˢ Finset.range 16

/-- The set of pairs currently marked free in the VTOC bitmap. -/
def freePairs (d : Disk) : Finset (Nat × Nat) :=
  gridPairs.filter (fun p => bitFreeP (read_sector d 17 0) p = true)

theorem alloc_of_find_some (d : Disk) (p : Nat × Nat)
    (h : scanOrder.find? (bitFreeP (read_sector d 17 0)) = some p) :
    allocate_sector d =
      .ok (p, writeSectorOk d 17 0 (vtocUpdate (read_sector d 17 0) p.1 p.2)) := by
  rw [allocate_sector_eq, h]
  rfl

theorem alloc_of_find_none (d : Disk)
    (h : scanOrder.find? (bitFreeP (read_sector d 17 0)) = none) :
    allocate_sector d = .error .diskFull := by
  rw [allocate_sector_eq, h]
  rfl

theorem alloc_error_eq (d : Disk) (e : DiskErr)
    (h : allocate_sector d = .error e) : e = .diskFull := by
  cases hfind : scanOrder.find? (bitFreeP (read_sector d 17 0)) with
  | none =>
    rw [alloc_of_find_none d hfind] at h
    exact (Except.error.inj h).symm
  | some p =>
    rw [alloc_of_find_some d p hfind] at h
    simp at h

theorem alloc_ok_spec (d : Disk) (p : Nat × Nat) (d' : Disk)
    (h : allocate_sector d = .ok (p, d')) :
    p ∈ scanOrder ∧ bitFreeP (read_sector d 17 0) p = true ∧
      read_sector d' 17 0 = vtocUpdate (read_sector d 17 0) p.1 p.2 ∧
      d' = writeSectorOk d 17 0 (vtocUpdate (read_sector d 17 0) p.1 p.2) := by
  cases hfind : scanOrder.find? (bitFreeP (read_sector d 17 0)) with
  | none =>
    rw [alloc_of_find_none d hfind] at h
    simp at h
  | some q =>
    have heq := (alloc_of_find_some d q hfind).symm.trans h
    have hq : q = p ∧
        writeSectorOk d 17 0 (vtocUpdate (read_sector d 17 0) q.1 q.2) = d' := by
      simpa using heq
    obtain ⟨rfl, hw⟩ := hq
    refine ⟨List.mem_of_find?_eq_some hfind, List.find?_some hfind, ?_, hw.symm⟩
    rw [← hw, read_sector_write_same_full]
    rw [vtocUpdate_length, read_sector_length]

theorem freePairs_alloc (d : Disk) (p : Nat × Nat) (d' : Disk)
    (h : allocate_sector d = .ok (p, d')) :
    p ∈ freePairs d ∧ freePairs d' = (freePairs d).erase p := by
  obtain ⟨hmem, hfree, hread, _⟩ := alloc_ok_spec d p d' h
  have hb := (mem_scanOrder_iff p).mp hmem
  constructor
  · simp only [freePairs, Finset.mem_filter, gridPairs, Finset.mem_product,
      Finset.mem_range]
    exact ⟨⟨hb.1, hb.2.2⟩, hfree⟩
  · ext q
    simp only [freePairs, Finset.mem_filter, Finset.mem_erase, gridPairs,
      Finset.mem_product, Finset.mem_range, hread]
    constructor
    · rintro ⟨⟨hq1, hq2⟩, hfq⟩
      rw [show q = (q.1, q.2) by rfl] at hfq
      rw [bitFreeP_vtocUpdate _ (read_sector_length d 17 0) _ _ _ _ hb.1 hq2] at hfq
      have hfq' := hfq
      rw [Bool.and_eq_true] at hfq'
      refine ⟨?_, ⟨hq1, hq2⟩, hfq'.1⟩
      intro hqp
      subst hqp
      simp at hfq'
    · rintro ⟨hqp, ⟨hq1, hq2⟩, hfq⟩
      refine ⟨⟨hq1, hq2⟩, ?_⟩
      rw [show q = (q.1, q.2) by rfl]
      rw [bitFreeP_vtocUpdate _ (read_sector_length d 17 0) _ _ _ _ hb.1 hq2]
      have : ¬ (q.1 = p.1 ∧ q.2 = p.2) := by
        intro ⟨h1, h2⟩
        exact hqp (Prod.ext h1 h2)
      rw [show q = (q.1, q.2) by rfl] at hfq
      simp only [hfq, Bool.true_and]
      by_cases h1 : q.1 = p.1
      · by_cases h2 : q.2 = p.2
        · exact absurd ⟨h1, h2⟩ this
        · simp [h2]
      · simp [h1]

theorem alloc_ok_of_free (d : Disk) (p₀ : Nat × Nat) (h : p₀ ∈ freePairs d)
    (h17 : p₀.1 ≠ 17) : ∃ p d', allocate_sector d = .ok (p, d') := by
  have hb : p₀ ∈ gridPairs ∧ bitFreeP (read_sector d 17 0) p₀ = true := by
    simpa [freePairs] using h
  have hmem : p₀ ∈ scanOrder := by
    rw [mem_scanOrder_iff]
    have := hb.1
    simp only [gridPairs, Finset.mem_product, Finset.mem_range] at this
    exact ⟨this.1, h17, this.2⟩
  have hsome : (scanOrder.find? (bitFreeP (read_sector d 17 0))).isSome := by
    rw [List.find?_isSome]
    exact ⟨p₀, hmem, hb.2⟩
  cases hfind : scanOrder.find? (bitFreeP (read_sector d 17 0)) with
  | none => rw [hfind] at hsome; simp at hsome
  | some p => exact ⟨p, _, alloc_of_find_some d p hfind⟩

/-- Iterated allocation: `allocN n d` performs `n` successive
`allocate_sector` calls, returning the list of allocated coordinates in
order.  The first error aborts the iteration. -/
def allocN : Nat → Disk → Except DiskErr (List (Nat × Nat) × Disk)
  | 0, d => .ok ([], d)
  | n + 1, d =>
    match allocate_sector d with
    | .error e => .error e
    | .ok (p, d') =>
      match allocN n d' with
      | .error e => .error e
      | .ok (ps, d'') => .ok (p :: ps, d'')

theorem allocN_spec (n : Nat) : ∀ d : Disk,
    (∀ p ∈ freePairs d, p.1 ≠ 17) → n ≤ (freePairs d).card →
    ∃ ps d', allocN n d = .ok (ps, d') ∧ ps.length = n ∧ ps.Nodup ∧
      (∀ p ∈ ps, p ∈ freePairs d) ∧ freePairs d' = freePairs d \ ps.toFinset ∧
      (∀ p ∈ freePairs d', p.1 ≠ 17) := by
  induction n with
  | zero =>
    intro d h17 _
    exact ⟨[], d, rfl, rfl, List.nodup_nil, by simp, by simp, h17⟩
  | succ n ih =>
    intro d h17 hcard
    have hpos : 0 < (freePairs d).card := by omega
    obtain ⟨p₀, hp₀⟩ := Finset.card_pos.mp hpos
    obtain ⟨p, d', hallocEq⟩ := alloc_ok_of_free d p₀ hp₀ (h17 p₀ hp₀)
    obtain ⟨hpmem, hfp⟩ := freePairs_alloc d p d' hallocEq
    have h17' : ∀ q ∈ freePairs d', q.1 ≠ 17 := by
      intro q hq
      rw [hfp] at hq
      exact h17 q (Finset.mem_of_mem_erase hq)
    have hcard' : n ≤ (freePairs d').card := by
      rw [hfp, Finset.card_erase_of_mem hpmem]
      omega
    obtain ⟨ps', d'', hrun, hlen, hnd, hsub, hfp', h17''⟩ := ih d' h17' hcard'
    refine ⟨p :: ps', d'', ?_, by simp [hlen], ?_, ?_, ?_, h17''⟩
    · simp only [allocN, hallocEq, hrun]
    · rw [List.nodup_cons]
      refine ⟨?_, hnd⟩
      intro hpin
      have := hsub p hpin
      rw [hfp] at this
      exact (Finset.mem_erase.mp this).1 rfl
    · intro q hq
      rcases List.mem_cons.mp hq with rfl | hq'
      · exact hpmem
      · exact Finset.mem_of_mem_erase (hfp ▸ hsub q hq')
    · rw [hfp', hfp]
      ext q
      simp only [Finset.mem_sdiff, Finset.mem_erase, List.toFinset_cons,
        Finset.mem_insert, List.mem_toFinset]
      constructor
      · rintro ⟨⟨hqp, hqd⟩, hqps⟩
        exact ⟨hqd, fun h => h.elim hqp hqps⟩
      · rintro ⟨hqd, hq2⟩
        push_neg at hq2
        exact ⟨⟨hq2.1, hqd⟩, hq2.2⟩

theorem bitFreeP_format (vol t s : Nat) (ht : t < 35) (hs : s < 16) :
    bitFreeP (read_sector (format vol) 17 0) (t, s) = !(decide (t = 17)) := by
  rw [read_format_vtoc, bitFreeP, and_one_shift_ne, bitmapOf]
  simp only [vtocList_getD, if_pos (show 0x38 + 4 * t < 256 by omega),
    if_pos (show 0x38 + 4 * t + 1 < 256 by omega)]
  have e0 := vtocByte_bitmap vol t 0 ht (by omega)
  have e1 := vtocByte_bitmap vol t 1 ht (by omega)
  rw [show 0x38 + 4 * t = 0x38 + 4 * t + 0 by omega, e0, e1]
  by_cases h : t = 17
  · simp [h]
  · simp only [h, if_false, if_pos (show (0 : Nat) < 2 by omega),
      if_pos (show (1 : Nat) < 2 by omega), decide_eq_false h, Bool.not_false]
    have : (0xFF : Nat) ||| 0xFF <<< 8 = 2 ^ 16 - 1 := by decide
    rw [this, Nat.testBit_two_pow_sub_one]
    simp [hs]

theorem freePairs_format (vol : Nat) :
    freePairs (format vol) = gridPairs.filter (fun p => p.1 ≠ 17) := by
  ext q
  simp only [freePairs, Finset.mem_filter]
  constructor
  · rintro ⟨hg, hb⟩
    refine ⟨hg, ?_⟩
    simp only [gridPairs, Finset.mem_product, Finset.mem_range] at hg
    rw [show q = (q.1, q.2) by rfl, bitFreeP_format vol q.1 q.2 hg.1 hg.2] at hb
    simpa using hb
  · rintro ⟨hg, hne⟩
    refine ⟨hg, ?_⟩
    simp only [gridPairs, Finset.mem_product, Finset.mem_range] at hg
    rw [show q = (q.1, q.2) by rfl, bitFreeP_format vol q.1 q.2 hg.1 hg.2]
    simpa using hne

theorem freePairs_format_card (vol : Nat) : (freePairs (format vol)).card = 544 := by
  rw [freePairs_format]
  decide

/-! ### Claim C2: allocation exhaustion on a fresh volume -/

/-- C2: starting from a freshly formatted volume and performing only
`allocate_sector` calls: the first 544 = (35-1)*16 calls all succeed, no
returned coordinate is on track 17, no coordinate is returned twice, and
the 545th call fails with the disk-full `IOError`.  (Since the run is
deterministic, every shorter run is a prefix of this one.) -/
theorem c2_alloc_exhaustion (vol : Nat) :
    ∃ ps d', allocN 544 (format vol) = .ok (ps, d') ∧ ps.length = 544 ∧
      ps.Nodup ∧ (∀ p ∈ ps, p.1 ≠ 17) ∧
      allocate_sector d' = .error .diskFull := by
  have h17 : ∀ p ∈ freePairs (format vol), p.1 ≠ 17 := by
    intro p hp
    rw [freePairs_format] at hp
    exact (Finset.mem_filter.mp hp).2
  obtain ⟨ps, d', hrun, hlen, hnd, hsub, hfp, _⟩ :=
    allocN_spec 544 (format vol) h17 (by rw [freePairs_format_card])
  refine ⟨ps, d', hrun, hlen, hnd, fun p hp => h17 p (hsub p hp), ?_⟩
  have hempty : freePairs d' = ∅ := by
    rw [hfp]
    have hBsub : ps.toFinset ⊆ freePairs (format vol) := by
      intro q hq
      exact hsub q (List.mem_toFinset.mp hq)
    have hBcard : ps.toFinset.card = 544 := by
      rw [List.toFinset_card_of_nodup hnd, hlen]
    apply Finset.card_eq_zero.mp
    rw [Finset.card_sdiff hBsub, hBcard, freePairs_format_card]
  cases halloc : allocate_sector d' with
  | ok pd =>
    obtain ⟨p, d''⟩ := pd
    have hpmem := (freePairs_alloc d' p d'' halloc).1
    rw [hempty] at hpmem
    exact absurd hpmem (Finset.not_mem_empty p)
  | error e =>
    rw [alloc_error_eq d' e halloc]

/-! ### Catalog management (`catalog`, `add_catalog_entry`) -/

/-- Python `str.upper` on an ASCII character code. -/
def upperCode (c : Nat) : Nat := if 97 ≤ c ∧ c ≤ 122 then c - 32 else c

/-- Python `str.upper` on an ASCII string (list of character codes). -/
def upperList (l : List Nat) : List Nat := l.map upperCode

/-- The characters Python's argumentless `str.strip`/`rstrip` removes
(ASCII whitespace: space, tab, LF, VT, FF, CR). -/
def pyIsSpace (c : Nat) : Bool :=
  c = 32 || c = 9 || c = 10 || c = 11 || c = 12 || c = 13

/-- Python `str.rstrip()`: drop trailing whitespace. -/
def rstripWs (l : List Nat) : List Nat := (l.reverse.dropWhile pyIsSpace).reverse

/-- A decoded catalog entry as produced by `catalog` (the `dict` fields
`name`, `type`, `locked`, `sectors`, `ts_track`, `ts_sector`,
`raw_type`; the single-character type tag is kept as its character
code). -/
structure FileEntry where
  name : List Nat
  ftype : Nat
  locked : Bool
  sectors : Nat
  ts_track : Nat
  ts_sector : Nat
  raw_type : Nat
deriving DecidableEq

/-- The type-tag character of `catalog`: 'T' unless the Applesoft bit
(0x02), else the Integer BASIC bit (0x01), else the binary bit (0x04)
is set — checked in that order. -/
def typeChar (ft : Nat) : Nat :=
  if ft &&& 0x02 != 0 then 65
  else if ft &&& 0x01 != 0 then 73
  else if ft &&& 0x04 != 0 then 66
  else 84

/-- Decode the 35-byte catalog entry at offset `off` of a catalog
sector image, skipping empty (0x00) and deleted (0xFF) slots. -/
def parseEntry (cd : List Nat) (off : Nat) : Option FileEntry :=
  let tt := cd.getD off 0
  if tt = 0 then none
  else if tt = 0xFF then none
  else
    some
      { name := rstripWs (((cd.drop (off + 3)).take 30).map (fun b => b &&& 0x7F))
        ftype := typeChar (cd.getD (off + 2) 0)
        locked := cd.getD (off + 2) 0 &&& 0x80 != 0
        sectors := cd.getD (off + 0x21) 0 ||| (cd.getD (off + 0x22) 0) <<< 8
        ts_track := tt
        ts_sector := cd.getD (off + 1) 0
        raw_type := cd.getD (off + 2) 0 }

/-- The 7-slot scan of one catalog sector (`for i in range(7)` with the
`entry_offset + 0x23 > 256` break, which never fires for `i < 7`). -/
def entriesAux (cd : List Nat) : Nat → Nat → List FileEntry
  | 0, _ => []
  | fuel + 1, i =>
    if 256 < 0x0B + i * 0x23 + 0x23 then []
    else
      match parseEntry cd (0x0B + i * 0x23) with
      | none => entriesAux cd fuel (i + 1)
      | some e => e :: entriesAux cd fuel (i + 1)

def entriesOf (cd : List Nat) : List FileEntry := entriesAux cd 7 0

/-- The catalog-chain walk of `catalog` (fuel-bounded embedding of the
`while cat_track != 0` loop; 560 = sectors on the disk). -/
def catalogAux (d : Disk) : Nat → Nat → Nat → List FileEntry
  | 0, _, _ => []
  | fuel + 1, t, s =>
    if t = 0 then []
    else
      entriesOf (read_sector d t s) ++
        catalogAux d fuel ((read_sector d t s).getD 1 0) ((read_sector d t s).getD 2 0)

/-- `catalog`: read the VTOC, then walk the catalog chain from its head
pointer collecting the decoded file entries. -/
def catalog (d : Disk) : List FileEntry :=
  catalogAux d 560 ((read_sector d 17 0).getD 1 0) ((read_sector d 17 0).getD 2 0)

/-- `filename.upper()[:30].ljust(30)`: the exact 30 characters stored
for a name. -/
def paddedName (name : List Nat) : List Nat :=
  (upperList name).take 30 ++ List.replicate (30 - ((upperList name).take 30).length) 32

/-- The name-store loop of `add_catalog_entry`: byte `base + j` becomes
`ord(c) | 0x80` for the `j`-th character. -/
def writeName : List Nat → Nat → List Nat → List Nat
  | cd, _, [] => cd
  | cd, base, c :: rest => writeName (cd.set base (c ||| 0x80)) (base + 1) rest

/-- The mutation of a catalog sector image performed once a free slot at
offset `off` is found: T/S-list coordinates, type byte, the 30 stored
name bytes, and the little-endian sector count. -/
def fillEntry (cd : List Nat) (off tst tss ft secs : Nat) (name : List Nat) : List Nat :=
  ((writeName (((cd.set off tst).set (off + 1) tss).set (off + 2) ft)
      (off + 3) (paddedName name)).set
    (off + 0x21) (secs &&& 0xFF)).set (off + 0x22) ((secs >>> 8) &&& 0xFF)

/-- The slot scan of `add_catalog_entry`: offset of the first of the 7
slots whose track byte is 0x00 (empty) or 0xFF (deleted). -/
def findSlotAux (cd : List Nat) : Nat → Nat → Option Nat
  | 0, _ => none
  | fuel + 1, i =>
    if cd.getD (0x0B + i * 0x23) 0 = 0 || cd.getD (0x0B + i * 0x23) 0 = 0xFF
    then some (0x0B + i * 0x23)
    else findSlotAux cd fuel (i + 1)

def findSlot (cd : List Nat) : Option Nat := findSlotAux cd 7 0

/-- The values a `bytearray` item assignment would receive while storing
an entry must all be bytes; otherwise Python raises `ValueError` before
the sector is written back. -/
def entryBytesOk (tst tss ft : Nat) (name : List Nat) : Bool :=
  tst < 256 && tss < 256 && ft < 256 && (paddedName name).all (fun c => c ||| 0x80 < 256)

/-- The catalog-chain walk of `add_catalog_entry` (fuel-bounded
embedding of the `while cat_track != 0` loop). -/
def addAux (d : Disk) (name : List Nat) (ft tst tss secs : Nat) :
    Nat → Nat → Nat → Except DiskErr Disk
  | 0, _, _ => .error .fuelOut
  | fuel + 1, t, s =>
    if t = 0 then .error .catalogFull
    else
      match findSlot (read_sector d t s) with
      | some off =>
        if entryBytesOk tst tss ft name then
          .ok (writeSectorOk d t s (fillEntry (read_sector d t s) off tst tss ft secs name))
        else .error .byteRange
      | none =>
        addAux d name ft tst tss secs fuel
          ((read_sector d t s).getD 1 0) ((read_sector d t s).getD 2 0)

/-- `add_catalog_entry(filename, file_type, ts_track, ts_sector,
sectors)`: walk the chain from the VTOC's head pointer and write the
entry into the first free slot; raise `IOError("Catalog full")` when the
chain ends without one. -/
def add_catalog_entry (d : Disk) (name : List Nat) (ft tst tss secs : Nat) :
    Except DiskErr Disk :=
  addAux d name ft tst tss secs 560
    ((read_sector d 17 0).getD 1 0) ((read_sector d 17 0).getD 2 0)

theorem writeName_length (cs : List Nat) : ∀ (cd : List Nat) (base : Nat),
    (writeName cd base cs).length = cd.length := by
  induction cs with
  | nil => intro cd base; rfl
  | cons c rest ih =>
    intro cd base
    rw [writeName, ih]
    simp

theorem writeName_getD (cs : List Nat) : ∀ (cd : List Nat) (base j : Nat),
    base + cs.length ≤ cd.length →
    (writeName cd base cs).getD j 0 =
      if base ≤ j ∧ j < base + cs.length then cs.getD (j - base) 0 ||| 0x80
      else cd.getD j 0 := by
  induction cs with
  | nil =>
    intro cd base j _
    rw [writeName, if_neg (by simp)]
  | cons c rest ih =>
    intro cd base j hlen
    simp only [List.length_cons] at hlen ⊢
    rw [writeName, ih _ _ _ (by simp; omega)]
    by_cases hjb : j = base
    · subst hjb
      rw [if_neg (by omega), getD_set_self _ _ _ (by omega), if_pos (by omega)]
      simp
    · by_cases hj : base ≤ j ∧ j < base + (rest.length + 1)
      · rw [if_pos (by omega), if_pos hj]
        have hsub : j - base = (j - (base + 1)) + 1 := by omega
        rw [hsub]
        rfl
      · rw [if_neg (by omega), if_neg hj, getD_set_ne _ _ _ _ (by omega)]

theorem paddedName_length (name : List Nat) : (paddedName name).length = 30 := by
  simp only [paddedName, List.length_append, List.length_replicate]
  have : ((upperList name).take 30).length ≤ 30 := by
    simp [List.length_take]
  omega

theorem fillEntry_length (cd : List Nat) (off tst tss ft secs : Nat) (name : List Nat) :
    (fillEntry cd off tst tss ft secs name).length = cd.length := by
  simp [fillEntry, writeName_length]

theorem fillEntry_getD (cd : List Nat) (off tst tss ft secs : Nat) (name : List Nat)
    (hoff : off + 0x23 ≤ cd.length) (j : Nat) :
    (fillEntry cd off tst tss ft secs name).getD j 0 =
      if j = off then tst
      else if j = off + 1 then tss
      else if j = off + 2 then ft
      else if off + 3 ≤ j ∧ j < off + 33 then (paddedName name).getD (j - (off + 3)) 0 ||| 0x80
      else if j = off + 0x21 then secs &&& 0xFF
      else if j = off + 0x22 then (secs >>> 8) &&& 0xFF
      else cd.getD j 0 := by
  have hw : (writeName (((cd.set off tst).set (off + 1) tss).set (off + 2) ft)
      (off + 3) (paddedName name)).length = cd.length := by
    simp [writeName_length]
  rw [fillEntry]
  by_cases h22 : j = off + 0x22
  · subst h22
    rw [getD_set_self _ _ _ (by simp [hw]; omega)]
    rw [if_neg (by omega), if_neg (by omega), if_neg (by omega), if_neg (by omega),
      if_neg (by omega), if_pos rfl]
  · rw [getD_set_ne _ _ _ _ (by omega)]
    by_cases h21 : j = off + 0x21
    · subst h21
      rw [getD_set_self _ _ _ (by simp [hw]; omega)]
      rw [if_neg (by omega), if_neg (by omega), if_neg (by omega), if_neg (by omega),
        if_pos rfl]
    · rw [getD_set_ne _ _ _ _ (by omega)]
      rw [writeName_getD _ _ _ _ (by simp [paddedName_length]; omega)]
      rw [paddedName_length]
      by_cases hname : off + 3 ≤ j ∧ j < off + 33
      · rw [if_pos (by omega), if_neg (by omega), if_neg (by omega), if_neg (by omega),
          if_pos hname]
      · rw [if_neg (by omega)]
        by_cases h0 : j = off
        · subst h0
          rw [getD_set_ne _ _ _ _ (by omega), getD_set_ne _ _ _ _ (by omega),
            getD_set_self _ _ _ (by omega), if_pos rfl]
        · rw [if_neg h0]
          by_cases h1 : j = off + 1
          · subst h1
            rw [getD_set_ne _ _ _ _ (by omega), getD_set_self _ _ _ (by simp; omega),
              if_pos rfl]
          · rw [if_neg h1]
            by_cases h2 : j = off + 2
            · subst h2
              rw [getD_set_self _ _ _ (by simp; omega), if_pos rfl]
            · rw [if_neg h2, getD_set_ne _ _ _ _ (by omega),
                getD_set_ne _ _ _ _ (by omega), getD_set_ne _ _ _ _ (by omega),
                if_neg hname, if_neg (by omega), if_neg (by omega)]

theorem entriesAux_eq_filterMap (cd : List Nat) :
    ∀ fuel i, i + fuel ≤ 7 →
      entriesAux cd fuel i =
        (List.range' i fuel).filterMap (fun k => parseEntry cd (0x0B + k * 0x23)) := by
  intro fuel
  induction fuel with
  | zero => intro i _; rfl
  | succ fuel ih =>
    intro i hi
    rw [entriesAux, if_neg (by omega), List.range'_succ, List.filterMap_cons]
    cases hp : parseEntry cd (0x0B + i * 0x23) with
    | none => simp only [ih (i + 1) (by omega)]
    | some e => simp only [ih (i + 1) (by omega)]

theorem entriesOf_eq (cd : List Nat) :
    entriesOf cd = [0, 1, 2, 3, 4, 5, 6].filterMap (fun k => parseEntry cd (0x0B + k * 0x23)) := by
  rw [entriesOf, entriesAux_eq_filterMap cd 7 0 (by omega)]
  rfl

theorem parseEntry_catalogSector (s off : Nat) (h2 : 2 < off) (h256 : off < 256) :
    parseEntry (catalogSectorList s) off = none := by
  rw [parseEntry]
  have h : (catalogSectorList s).getD off 0 = 0 := by
    rw [catalogSectorList_getD, if_pos h256, catalogSectorByte,
      if_neg (by omega), if_neg (by omega)]
  simp only [h]
  rfl

theorem entriesOf_catalogSector (s : Nat) : entriesOf (catalogSectorList s) = [] := by
  rw [entriesOf_eq]
  simp only [List.filterMap_cons]
  rw [parseEntry_catalogSector s _ (by omega) (by omega),
    parseEntry_catalogSector s _ (by omega) (by omega),
    parseEntry_catalogSector s _ (by omega) (by omega),
    parseEntry_catalogSector s _ (by omega) (by omega),
    parseEntry_catalogSector s _ (by omega) (by omega),
    parseEntry_catalogSector s _ (by omega) (by omega),
    parseEntry_catalogSector s _ (by omega) (by omega)]
  rfl

/-- A disk whose catalog area is still in its just-formatted shape:
VTOC head pointer (17, 15) and pristine chained catalog sectors.  The
catalog-area lemmas below only need this much, so they also apply after
unrelated sector writes and VTOC bitmap updates. -/
def CatReady (d : Disk) : Prop :=
  (read_sector d 17 0).getD 1 0 = 17 ∧ (read_sector d 17 0).getD 2 0 = 15 ∧
    ∀ s, 1 ≤ s → s ≤ 15 → read_sector d 17 s = catalogSectorList s

theorem catReady_format (vol : Nat) : CatReady (format vol) := by
  refine ⟨?_, ?_, fun s h1 h2 => read_format_catalog vol s h1 h2⟩
  · rw [read_format_vtoc, vtocList_getD]
    norm_num [vtocByte, vtocHeader]
  · rw [read_format_vtoc, vtocList_getD]
    norm_num [vtocByte, vtocHeader]

theorem findSlot_catalogSector15 : findSlot (catalogSectorList 15) = some 0x0B := by
  decide

theorem add_on_catReady (d : Disk) (h : CatReady d) (name : List Nat)
    (ft tst tss secs : Nat) (hok : entryBytesOk tst tss ft name = true) :
    add_catalog_entry d name ft tst tss secs =
      .ok (writeSectorOk d 17 15
        (fillEntry (catalogSectorList 15) 0x0B tst tss ft secs name)) := by
  obtain ⟨h1, h2, hsec⟩ := h
  rw [add_catalog_entry, h1, h2, show (560 : Nat) = 559 + 1 from rfl, addAux,
    if_neg (by omega), hsec 15 (by omega) (by omega), findSlot_catalogSector15]
  simp only [hok, if_true]

theorem add_on_catReady_err (d : Disk) (h : CatReady d) (name : List Nat)
    (ft tst tss secs : Nat) (hok : entryBytesOk tst tss ft name = false) :
    add_catalog_entry d name ft tst tss secs = .error .byteRange := by
  obtain ⟨h1, h2, hsec⟩ := h
  rw [add_catalog_entry, h1, h2, show (560 : Nat) = 559 + 1 from rfl, addAux,
    if_neg (by omega), hsec 15 (by omega) (by omega), findSlot_catalogSector15]
  simp only [hok, Bool.false_eq_true, if_false]

theorem catalogAux_zero_track (d : Disk) (f : Nat) : catalogAux d f 0 0 = [] := by
  cases f with
  | zero => rfl
  | succ f2 => rw [catalogAux, if_pos rfl]

theorem catalogAux_empty (d : Disk)
    (hread : ∀ s, 1 ≤ s → s ≤ 14 → read_sector d 17 s = catalogSectorList s) :
    ∀ s, 1 ≤ s → s ≤ 14 → ∀ fuel, s + 1 ≤ fuel → catalogAux d fuel 17 s = [] := by
  intro s
  induction s with
  | zero => intro h1 _ _ _; exact absurd h1 (by omega)
  | succ s ih =>
    intro h1 h2 fuel hf
    cases fuel with
    | zero => omega
    | succ f =>
      rw [catalogAux, if_neg (by omega), hread (s + 1) h1 h2,
        entriesOf_catalogSector, catalogSectorList_getD, catalogSectorList_getD,
        if_pos (by omega), if_pos (by omega)]
      rw [show catalogSectorByte (s + 1) 1 = if 1 < s + 1 then 17 else 0 from rfl,
        show catalogSectorByte (s + 1) 2 = if 1 < s + 1 then s + 1 - 1 else 0 from rfl]
      by_cases hs : s = 0
      · subst hs
        rw [if_neg (by omega), if_neg (by omega)]
        simp [catalogAux_zero_track]
      · rw [if_pos (by omega), if_pos (by omega),
          show s + 1 - 1 = s from rfl]
        simp only [List.nil_append]
        exact ih (by omega) (by omega) f (by omega)

theorem catalog_after_fill (d : Disk) (hcr : CatReady d) (cd' : List Nat)
    (hlen : cd'.length = 256) (h1 : cd'.getD 1 0 = 17) (h2 : cd'.getD 2 0 = 14) :
    catalog (writeSectorOk d 17 15 cd') = entriesOf cd' := by
  obtain ⟨hh1, hh2, hsec⟩ := hcr
  have hvread : read_sector (writeSectorOk d 17 15 cd') 17 0 = read_sector d 17 0 :=
    read_sector_write_ne _ _ (by omega) (by omega) (by decide)
  rw [catalog, hvread, hh1, hh2, show (560 : Nat) = 559 + 1 from rfl, catalogAux,
    if_neg (by omega)]
  have h15 : read_sector (writeSectorOk d 17 15 cd') 17 15 = cd' :=
    read_sector_write_same_full _ _ _ _ hlen
  rw [h15, h1, h2]
  have hread' : ∀ s, 1 ≤ s → s ≤ 14 →
      read_sector (writeSectorOk d 17 15 cd') 17 s = catalogSectorList s := by
    intro s hs1 hs2
    rw [read_sector_write_ne _ _ (by omega) (by omega)
      (by intro he; rw [Prod.mk.injEq] at he; omega), hsec s hs1 (by omega)]
  rw [catalogAux_empty _ hread' 14 (by omega) (by omega) 559 (by omega)]
  simp

/-! ### Decoding a freshly stored entry -/

theorem or80_and7F (c : Nat) (h : c < 128) : (c ||| 0x80) &&& 0x7F = c := by
  apply Nat.eq_of_testBit_eq
  intro j
  simp only [Nat.testBit_and, Nat.testBit_or]
  have h7F : (0x7F : Nat).testBit j = decide (j < 7) := by
    have := Nat.testBit_two_pow_sub_one 7 j
    norm_num at this
    exact this
  have h80 : (0x80 : Nat).testBit j = decide (7 = j) := by
    have := Nat.testBit_two_pow (n := 7) (m := j)
    norm_num at this
    exact this
  rcases Nat.lt_or_ge j 7 with hj | hj
  · have : ¬ (7 = j) := by omega
    simp [h7F, h80, hj, this]
  · have hpow : (128 : Nat) ≤ 2 ^ j := by
      calc (128 : Nat) = 2 ^ 7 := by norm_num
        _ ≤ 2 ^ j := Nat.pow_le_pow_right (by omega) hj
    have hc : c.testBit j = false := Nat.testBit_lt_two_pow (lt_of_lt_of_le h hpow)
    have : ¬ (j < 7) := by omega
    simp [h7F, h80, hc, this]

theorem map_or80_and7F (l : List Nat) (h : ∀ c ∈ l, c < 128) :
    l.map (fun c => (c ||| 0x80) &&& 0x7F) = l := by
  rw [List.map_congr_left (g := id) (fun c hc => or80_and7F c (h c hc)), List.map_id]

theorem bytes_roundtrip_16 (secs : Nat) (h : secs < 65536) :
    (secs &&& 0xFF) ||| ((secs >>> 8) &&& 0xFF) <<< 8 = secs := by
  apply Nat.eq_of_testBit_eq
  intro j
  rcases Nat.lt_or_ge j 16 with hj | hj
  · exact testBit_two_bytes secs j hj
  · have hpow : (65536 : Nat) ≤ 2 ^ j := by
      calc (65536 : Nat) = 2 ^ 16 := by norm_num
        _ ≤ 2 ^ j := Nat.pow_le_pow_right (by omega) hj
    have hc : secs.testBit j = false := Nat.testBit_lt_two_pow (lt_of_lt_of_le h hpow)
    have h255 : ∀ i, (0xFF : Nat).testBit i = decide (i < 8) := by
      intro i
      have := Nat.testBit_two_pow_sub_one 8 i
      norm_num at this
      exact this
    simp only [Nat.testBit_or, Nat.testBit_and, Nat.testBit_shiftLeft,
      Nat.testBit_shiftRight, h255, hc]
    have h1 : ¬ (j < 8) := by omega
    have h2 : ¬ (j - 8 < 8) := by omega
    simp [h1, h2]

theorem fill_name_slice (tst tss ft secs : Nat) (name : List Nat) :
    ((fillEntry (catalogSectorList 15) 0x0B tst tss ft secs name).drop 14).take 30 =
      (paddedName name).map (fun c => c ||| 0x80) := by
  have hflen : (fillEntry (catalogSectorList 15) 0x0B tst tss ft secs name).length = 256 := by
    rw [fillEntry_length, catalogSectorList_length]
  apply List.ext_getElem
  · simp [hflen, paddedName_length]
  · intro i h1 h2
    have hi : i < 30 := by
      simp only [List.length_take, List.length_drop, hflen] at h1
      omega
    rw [List.getElem_take, List.getElem_drop, List.getElem_map]
    have hfb : (fillEntry (catalogSectorList 15) 0x0B tst tss ft secs name)[14 + i] =
        (fillEntry (catalogSectorList 15) 0x0B tst tss ft secs name).getD (14 + i) 0 :=
      (List.getD_eq_getElem _ _ (by omega)).symm
    rw [hfb, fillEntry_getD _ _ _ _ _ _ _ (by rw [catalogSectorList_length]; omega),
      if_neg (by omega), if_neg (by omega), if_neg (by omega), if_pos (by omega)]
    have hsub : 14 + i - (0x0B + 3) = i := by omega
    rw [hsub, List.getD_eq_getElem _ _ (by rw [paddedName_length]; exact hi)]

theorem parseEntry_fill_slot0 (tst tss ft secs : Nat) (name : List Nat)
    (htst0 : tst ≠ 0) (htstFF : tst ≠ 0xFF) :
    parseEntry (fillEntry (catalogSectorList 15) 0x0B tst tss ft secs name) 0x0B =
      some
        { name := rstripWs ((paddedName name).map (fun c => (c ||| 0x80) &&& 0x7F))
          ftype := typeChar ft
          locked := ft &&& 0x80 != 0
          sectors := (secs &&& 0xFF) ||| ((secs >>> 8) &&& 0xFF) <<< 8
          ts_track := tst
          ts_sector := tss
          raw_type := ft } := by
  have hoff : 0x0B + 0x23 ≤ (catalogSectorList 15).length := by
    rw [catalogSectorList_length]
    omega
  rw [parseEntry]
  have h0 : (fillEntry (catalogSectorList 15) 0x0B tst tss ft secs name).getD 0x0B 0 = tst := by
    rw [fillEntry_getD _ _ _ _ _ _ _ hoff, if_pos rfl]
  have h1 : (fillEntry (catalogSectorList 15) 0x0B tst tss ft secs name).getD (0x0B + 1) 0 =
      tss := by
    rw [fillEntry_getD _ _ _ _ _ _ _ hoff, if_neg (by omega), if_pos rfl]
  have h2 : (fillEntry (catalogSectorList 15) 0x0B tst tss ft secs name).getD (0x0B + 2) 0 =
      ft := by
    rw [fillEntry_getD _ _ _ _ _ _ _ hoff, if_neg (by omega), if_neg (by omega), if_pos rfl]
  have h21 : (fillEntry (catalogSectorList 15) 0x0B tst tss ft secs name).getD (0x0B + 0x21) 0 =
      secs &&& 0xFF := by
    rw [fillEntry_getD _ _ _ _ _ _ _ hoff, if_neg (by omega), if_neg (by omega),
      if_neg (by omega), if_neg (by omega), if_pos rfl]
  have h22 : (fillEntry (catalogSectorList 15) 0x0B tst tss ft secs name).getD (0x0B + 0x22) 0 =
      (secs >>> 8) &&& 0xFF := by
    rw [fillEntry_getD _ _ _ _ _ _ _ hoff, if_neg (by omega), if_neg (by omega),
      if_neg (by omega), if_neg (by omega), if_neg (by omega), if_pos rfl]
  simp only [h0, h1, h2, h21, h22, if_neg htst0, if_neg htstFF]
  rw [fill_name_slice, List.map_map]
  rfl

theorem parseEntry_fill_other (tst tss ft secs : Nat) (name : List Nat) (off : Nat)
    (h45 : 45 < off) (h256 : off < 256) :
    parseEntry (fillEntry (catalogSectorList 15) 0x0B tst tss ft secs name) off = none := by
  rw [parseEntry]
  have h : (fillEntry (catalogSectorList 15) 0x0B tst tss ft secs name).getD off 0 = 0 := by
    rw [fillEntry_getD _ _ _ _ _ _ _ (by rw [catalogSectorList_length]; omega),
      if_neg (by omega), if_neg (by omega), if_neg (by omega), if_neg (by omega),
      if_neg (by omega), if_neg (by omega), catalogSectorList_getD, if_pos h256,
      catalogSectorByte, if_neg (by omega), if_neg (by omega)]
  simp only [h]
  rfl

theorem entriesOf_fill (tst tss ft secs : Nat) (name : List Nat)
    (htst0 : tst ≠ 0) (htstFF : tst ≠ 0xFF) :
    entriesOf (fillEntry (catalogSectorList 15) 0x0B tst tss ft secs name) =
      [{ name := rstripWs ((paddedName name).map (fun c => (c ||| 0x80) &&& 0x7F))
         ftype := typeChar ft
         locked := ft &&& 0x80 != 0
         sectors := (secs &&& 0xFF) ||| ((secs >>> 8) &&& 0xFF) <<< 8
         ts_track := tst
         ts_sector := tss
         raw_type := ft }] := by
  rw [entriesOf_eq]
  simp only [List.filterMap_cons]
  rw [show (0x0B + 0 * 0x23 : Nat) = 0x0B by omega,
    parseEntry_fill_slot0 tst tss ft secs name htst0 htstFF,
    parseEntry_fill_other tst tss ft secs name _ (by omega) (by omega),
    parseEntry_fill_other tst tss ft secs name _ (by omega) (by omega),
    parseEntry_fill_other tst tss ft secs name _ (by omega) (by omega),
    parseEntry_fill_other tst tss ft secs name _ (by omega) (by omega),
    parseEntry_fill_other tst tss ft secs name _ (by omega) (by omega),
    parseEntry_fill_other tst tss ft secs name _ (by omega) (by omega)]
  rfl

instance {ε β : Type} [DecidableEq ε] [DecidableEq β] : DecidableEq (Except ε β)
  | .error e, .error e' =>
    if h : e = e' then isTrue (h ▸ rfl) else isFalse (fun hh => h (Except.error.inj hh))
  | .error _, .ok _ => isFalse (fun hh => Except.noConfusion hh)
  | .ok _, .error _ => isFalse (fun hh => Except.noConfusion hh)
  | .ok a, .ok b =>
    if h : a = b then isTrue (h ▸ rfl) else isFalse (fun hh => h (Except.ok.inj hh))

/-! ### Name storage and decoding -/

theorem upperCode_range (c : Nat) (h1 : 32 ≤ c) (h2 : c ≤ 126) :
    32 ≤ upperCode c ∧ upperCode c ≤ 126 := by
  rw [upperCode]
  split <;> omega

theorem upperCode_lt_128 (c : Nat) (h : c < 128) : upperCode c < 128 := by
  rw [upperCode]
  split <;> omega

theorem dropWhile_idem (p : Nat → Bool) (l : List Nat) :
    List.dropWhile p (List.dropWhile p l) = List.dropWhile p l := by
  induction l with
  | nil => rfl
  | cons a l ih =>
    cases h : p a with
    | true => simp [List.dropWhile_cons, h, ih]
    | false => simp [List.dropWhile_cons, h]

theorem dropWhile_replicate_append (p : Nat → Bool) (a : Nat) (ha : p a = true)
    (m : Nat) (l : List Nat) :
    List.dropWhile p (List.replicate m a ++ l) = List.dropWhile p l := by
  induction m with
  | zero => rfl
  | succ m ih => simp [List.replicate_succ, List.dropWhile_cons, ha, ih]

theorem rstripWs_decomp (l : List Nat) :
    l = rstripWs l ++ (l.reverse.takeWhile pyIsSpace).reverse := by
  rw [rstripWs]
  conv =>
    lhs
    rw [show l = l.reverse.reverse from (List.reverse_reverse l).symm,
      show l.reverse = List.takeWhile pyIsSpace l.reverse ++ List.dropWhile pyIsSpace l.reverse
        from (List.takeWhile_append_dropWhile pyIsSpace l.reverse).symm]
  rw [List.reverse_append]

theorem rstripWs_idem (l : List Nat) : rstripWs (rstripWs l) = rstripWs l := by
  rw [rstripWs, rstripWs, List.reverse_reverse, dropWhile_idem]

theorem rstripWs_append_spaces (x : List Nat) (m : Nat) :
    rstripWs (x ++ List.replicate m 32) = rstripWs x := by
  rw [rstripWs, rstripWs, List.reverse_append, List.reverse_replicate,
    dropWhile_replicate_append pyIsSpace 32 (by decide)]

theorem mem_rstripWs (l : List Nat) (c : Nat) (h : c ∈ rstripWs l) : c ∈ l := by
  rw [rstripWs] at h
  rw [List.mem_reverse] at h
  have := (List.dropWhile_sublist pyIsSpace).mem h
  rwa [List.mem_reverse] at this

theorem paddedName_eq (name : List Nat) (hchars : ∀ c ∈ name, 32 ≤ c ∧ c ≤ 126)
    (hlen : (rstripWs (upperList name)).length ≤ 30) :
    paddedName name =
      rstripWs (upperList name) ++
        List.replicate (30 - (rstripWs (upperList name)).length) 32 := by
  have hu : ∀ c ∈ upperList name, 32 ≤ c ∧ c ≤ 126 := by
    intro c hc
    rw [upperList, List.mem_map] at hc
    obtain ⟨c', hc', rfl⟩ := hc
    exact upperCode_range c' (hchars c' hc').1 (hchars c' hc').2
  have htail : (((upperList name).reverse.takeWhile pyIsSpace).reverse) =
      List.replicate (((upperList name).reverse.takeWhile pyIsSpace).reverse).length 32 := by
    apply List.eq_replicate_of_mem
    intro b hb
    rw [List.mem_reverse] at hb
    have hsp := List.mem_takeWhile_imp hb
    have hmem : b ∈ upperList name := by
      have := (List.takeWhile_sublist pyIsSpace).mem hb
      rwa [List.mem_reverse] at this
    have := hu b hmem
    revert hsp
    rw [pyIsSpace]
    intro hsp
    simp only [Bool.or_eq_true, decide_eq_true_eq] at hsp
    omega
  have hdecomp := rstripWs_decomp (upperList name)
  set r := rstripWs (upperList name) with hr
  set k := (((upperList name).reverse.takeWhile pyIsSpace).reverse).length with hk
  rw [htail] at hdecomp
  rw [paddedName, upperList] at *
  rw [hdecomp, List.take_append_eq_append_take, List.take_of_length_le hlen,
    List.take_replicate, List.length_append, List.length_replicate]
  rw [List.append_assoc, ← List.replicate_add]
  congr 2
  omega

theorem paddedName_chars (name : List Nat) (hchars : ∀ c ∈ name, 32 ≤ c ∧ c ≤ 126) :
    ∀ c ∈ paddedName name, 32 ≤ c ∧ c ≤ 126 := by
  intro c hc
  rw [paddedName, List.mem_append] at hc
  rcases hc with hc | hc
  · have hc' : c ∈ upperList name := List.mem_of_mem_take hc
    rw [upperList, List.mem_map] at hc'
    obtain ⟨c', hcc, rfl⟩ := hc'
    exact upperCode_range c' (hchars c' hcc).1 (hchars c' hcc).2
  · rw [List.eq_of_mem_replicate hc]
    omega

theorem stored_name_decode (name : List Nat) (hchars : ∀ c ∈ name, 32 ≤ c ∧ c ≤ 126)
    (hlen : (rstripWs (upperList name)).length ≤ 30) :
    rstripWs ((paddedName name).map (fun c => (c ||| 0x80) &&& 0x7F)) =
      rstripWs (upperList name) := by
  rw [map_or80_and7F _ (fun c hc => by have := paddedName_chars name hchars c hc; omega),
    paddedName_eq name hchars hlen, rstripWs_append_spaces, rstripWs_idem]

theorem paddedName_ascii (name : List Nat) (h : ∀ c ∈ name, c < 128) :
    ∀ c ∈ paddedName name, c < 128 := by
  intro c hc
  rw [paddedName, List.mem_append] at hc
  rcases hc with hc | hc
  · have hc' : c ∈ upperList name := List.mem_of_mem_take hc
    rw [upperList, List.mem_map] at hc'
    obtain ⟨c', hcc, rfl⟩ := hc'
    exact upperCode_lt_128 c' (h c' hcc)
  · rw [List.eq_of_mem_replicate hc]
    omega

theorem entryBytesOk_of_ascii (tst tss ft : Nat) (name : List Nat)
    (h1 : tst < 256) (h2 : tss < 256) (h3 : ft < 256) (hn : ∀ c ∈ name, c < 128) :
    entryBytesOk tst tss ft name = true := by
  rw [entryBytesOk]
  simp only [Bool.and_eq_true, decide_eq_true_eq, List.all_eq_true]
  refine ⟨⟨⟨h1, h2⟩, h3⟩, ?_⟩
  intro c hc
  have hc' := paddedName_ascii name hn c hc
  have : c ||| 0x80 < 256 := by
    have h256 : (256 : Nat) = 2 ^ 8 := by norm_num
    rw [h256]
    exact Nat.or_lt_two_pow (by omega) (by omega)
  simpa using this

theorem paddedName_of_long (name : List Nat) (h : 30 ≤ name.length) :
    paddedName name = (upperList name).take 30 := by
  rw [paddedName]
  have hl : ((upperList name).take 30).length = 30 := by
    rw [List.length_take, upperList, List.length_map]
    omega
  rw [hl]
  simp

theorem fillEntry_ptr1 (tst tss ft secs : Nat) (name : List Nat) :
    (fillEntry (catalogSectorList 15) 0x0B tst tss ft secs name).getD 1 0 = 17 := by
  rw [fillEntry_getD _ _ _ _ _ _ _ (by rw [catalogSectorList_length]; omega),
    if_neg (by omega), if_neg (by omega), if_neg (by omega), if_neg (by omega),
    if_neg (by omega), if_neg (by omega), catalogSectorList_getD, if_pos (by omega)]
  rfl

theorem fillEntry_ptr2 (tst tss ft secs : Nat) (name : List Nat) :
    (fillEntry (catalogSectorList 15) 0x0B tst tss ft secs name).getD 2 0 = 14 := by
  rw [fillEntry_getD _ _ _ _ _ _ _ (by rw [catalogSectorList_length]; omega),
    if_neg (by omega), if_neg (by omega), if_neg (by omega), if_neg (by omega),
    if_neg (by omega), if_neg (by omega), catalogSectorList_getD, if_pos (by omega)]
  rfl

/-! ### Claims C1 and C9: catalog entry round-trip and name truncation -/

/-- C1 (amended to names of printable-ASCII characters, codes 32–126):
on a freshly formatted volume, registering a file whose name (after
upper-casing and trimming trailing spaces) has at most 30 characters,
whose type byte is one of the known types optionally with the lock bit,
and whose sector count fits 16 bits, and then listing the catalog,
returns exactly one entry whose name is the upper-cased trimmed input
name, whose tag is computed with the Applesoft bit checked before
Integer BASIC before binary (`typeChar`), whose locked flag is type bit
7, and whose sector count is the input count exactly.  The amendment is
forced by `c1_roundtrip_cex`: for a name containing a character with
code ≥ 128 (or a non-space trailing whitespace character) the decoded
name differs from the upper-cased trimmed input. -/
theorem c1_roundtrip_printable (vol : Nat) (name : List Nat) (ft tst tss secs : Nat)
    (hchars : ∀ c ∈ name, 32 ≤ c ∧ c ≤ 126)
    (hlen : (rstripWs (upperList name)).length ≤ 30)
    (hft : ft ∈ ([0x00, 0x01, 0x02, 0x04, 0x80, 0x81, 0x82, 0x84] : List Nat))
    (hsecs : secs ≤ 65535) (htst1 : 1 ≤ tst) (htst2 : tst ≤ 254) (htss : tss ≤ 255) :
    ∃ d', add_catalog_entry (format vol) name ft tst tss secs = .ok d' ∧
      catalog d' =
        [{ name := rstripWs (upperList name), ftype := typeChar ft,
           locked := ft &&& 0x80 != 0, sectors := secs,
           ts_track := tst, ts_sector := tss, raw_type := ft }] := by
  have hft256 : ft < 256 := by
    have hall : ∀ x ∈ ([0x00, 0x01, 0x02, 0x04, 0x80, 0x81, 0x82, 0x84] : List Nat),
        x < 256 := by decide
    exact hall ft hft
  have hok := entryBytesOk_of_ascii tst tss ft name (by omega) (by omega) hft256
    (fun c hc => by have := hchars c hc; omega)
  have hadd := add_on_catReady (format vol) (catReady_format vol) name ft tst tss secs hok
  refine ⟨_, hadd, ?_⟩
  rw [catalog_after_fill (format vol) (catReady_format vol) _
      (by rw [fillEntry_length, catalogSectorList_length])
      (fillEntry_ptr1 tst tss ft secs name) (fillEntry_ptr2 tst tss ft secs name),
    entriesOf_fill tst tss ft secs name (by omega) (by omega),
    stored_name_decode name hchars hlen, bytes_roundtrip_16 secs (by omega)]

/-- Witness for C1 at a concrete input: name "ab", Applesoft + locked
type byte, 123 sectors. -/
theorem c1_roundtrip_printable_witness :
    (∀ c ∈ ([97, 98] : List Nat), 32 ≤ c ∧ c ≤ 126) ∧
    (rstripWs (upperList [97, 98])).length ≤ 30 ∧
    (0x82 : Nat) ∈ ([0x00, 0x01, 0x02, 0x04, 0x80, 0x81, 0x82, 0x84] : List Nat) ∧
    (123 : Nat) ≤ 65535 ∧ (1 : Nat) ≤ 18 ∧ (18 : Nat) ≤ 254 ∧ (0 : Nat) ≤ 255 ∧
    (∃ d', add_catalog_entry (format 254) [97, 98] 0x82 18 0 123 = .ok d' ∧
      catalog d' =
        [{ name := rstripWs (upperList [97, 98]), ftype := typeChar 0x82,
           locked := 0x82 &&& 0x80 != 0, sectors := 123,
           ts_track := 18, ts_sector := 0, raw_type := 0x82 }]) :=
  ⟨by decide, by decide, by decide, by decide, by decide, by decide, by decide,
    c1_roundtrip_printable 254 [97, 98] 0x82 18 0 123 (by decide) (by decide)
      (by decide) (by decide) (by decide) (by decide) (by decide)⟩

/-- Counterexample to C1 as frozen: registering the one-character name
[200] ('È', upper-case already, no trailing spaces, well within 30
characters) and listing the catalog yields the name [72] ('H'), because
the stored byte 200 | 0x80 = 200 decodes as 200 & 0x7F = 72 — not the
upper-cased trimmed input name [200]. -/
theorem c1_roundtrip_cex :
    (add_catalog_entry (format 254) [200] 0x02 18 0 1).map
        (fun d => (catalog d).map FileEntry.name) = .ok [[72]] ∧
      rstripWs (upperList [200]) = [200] ∧ ([72] : List Nat) ≠ [200] := by
  refine ⟨?_, by decide, by decide⟩
  rw [add_on_catReady (format 254) (catReady_format 254) [200] 0x02 18 0 1 (by decide)]
  rw [show ∀ (f : Disk → List (List Nat)) (d : Disk),
        (Except.ok (ε := DiskErr) d).map f = .ok (f d) from fun f d => rfl]
  rw [catalog_after_fill (format 254) (catReady_format 254) _
      (by rw [fillEntry_length, catalogSectorList_length])
      (fillEntry_ptr1 18 0 0x02 1 [200]) (fillEntry_ptr2 18 0 0x02 1 [200]),
    entriesOf_fill 18 0 0x02 1 [200] (by omega) (by omega)]
  rw [List.map_cons, List.map_nil]
  have hname : rstripWs ((paddedName [200]).map (fun c => (c ||| 0x80) &&& 0x7F)) =
      [72] := by decide
  rw [hname]

/-- C9 (amended to ASCII names, codes < 128): a name longer than 30
characters is stored without raising, and the stored name field is
exactly the first 30 characters of the upper-cased name (with the high
bit set on each stored byte) — 30 characters, not 31.  The amendment is
forced by `c9_truncate_cex`: a name character whose code exceeds 255
makes the Python `bytearray` assignment `ord(c) | 0x80` raise
`ValueError`. -/
theorem c9_truncate_ascii (vol : Nat) (name : List Nat) (ft tst tss secs : Nat)
    (hlong : 30 < name.length) (hascii : ∀ c ∈ name, c < 128)
    (hft : ft < 256) (htst : tst < 256) (htss : tss < 256) :
    ∃ d', add_catalog_entry (format vol) name ft tst tss secs = .ok d' ∧
      ((read_sector d' 17 15).drop 14).take 30 =
        ((upperList name).take 30).map (fun c => c ||| 0x80) ∧
      (((read_sector d' 17 15).drop 14).take 30).length = 30 := by
  have hok := entryBytesOk_of_ascii tst tss ft name htst htss hft hascii
  have hadd := add_on_catReady (format vol) (catReady_format vol) name ft tst tss secs hok
  refine ⟨_, hadd, ?_, ?_⟩
  · rw [read_sector_write_same_full _ _ _ _
        (by rw [fillEntry_length, catalogSectorList_length]),
      fill_name_slice, paddedName_of_long name (by omega)]
  · rw [read_sector_write_same_full _ _ _ _
        (by rw [fillEntry_length, catalogSectorList_length]),
      fill_name_slice, List.length_map, paddedName_length]

/-- Witness for C9 at a concrete input: a 31-character name. -/
theorem c9_truncate_ascii_witness :
    30 < (List.replicate 31 65 : List Nat).length ∧
    (∀ c ∈ (List.replicate 31 65 : List Nat), c < 128) ∧
    (2 : Nat) < 256 ∧ (18 : Nat) < 256 ∧ (0 : Nat) < 256 ∧
    (∃ d', add_catalog_entry (format 254) (List.replicate 31 65) 2 18 0 1 = .ok d' ∧
      ((read_sector d' 17 15).drop 14).take 30 =
        ((upperList (List.replicate 31 65)).take 30).map (fun c => c ||| 0x80) ∧
      (((read_sector d' 17 15).drop 14).take 30).length = 30) :=
  ⟨by decide, by decide, by decide, by decide, by decide,
    c9_truncate_ascii 254 (List.replicate 31 65) 2 18 0 1 (by decide) (by decide)
      (by decide) (by decide) (by decide)⟩

/-- Counterexample to C9 as frozen: a 31-character name of CJK
characters (code 20013, unchanged by upper-casing) raises the
`bytearray` range `ValueError` — `ord(c) | 0x80 = 20141 > 255` — instead
of storing a truncated entry, so "does not throw" fails for names
outside the byte range. -/
theorem c9_truncate_cex :
    (add_catalog_entry (format 254) (List.replicate 31 20013) 2 18 0 1).map
      (fun _ => (0 : Nat)) = .error .byteRange := by
  rw [add_on_catReady_err (format 254) (catReady_format 254) (List.replicate 31 20013)
    2 18 0 1 (by decide)]
  rfl

/-! ### Applesoft BASIC tokenization (`tokenize_basic`, `tokenize_line`) -/

/-- `BASIC_TOKENS`: the keyword → token-byte table, in the source's
(dict insertion) order; keywords as ASCII character codes. -/
def basicTokens : List (List Nat × Nat) := [
    ([69, 78, 68], 0x80),  -- END
    ([70, 79, 82], 0x81),  -- FOR
    ([78, 69, 88, 84], 0x82),  -- NEXT
    ([68, 65, 84, 65], 0x83),  -- DATA
    ([73, 78, 80, 85, 84], 0x84),  -- INPUT
    ([68, 69, 76], 0x85),  -- DEL
    ([68, 73, 77], 0x86),  -- DIM
    ([82, 69, 65, 68], 0x87),  -- READ
    ([71, 82], 0x88),  -- GR
    ([84, 69, 88, 84], 0x89),  -- TEXT
    ([80, 82, 35], 0x8A),  -- PR#
    ([73, 78, 35], 0x8B),  -- IN#
    ([67, 65, 76, 76], 0x8C),  -- CALL
    ([80, 76, 79, 84], 0x8D),  -- PLOT
    ([72, 76, 73, 78], 0x8E),  -- HLIN
    ([86, 76, 73, 78], 0x8F),  -- VLIN
    ([72, 71, 82, 50], 0x90),  -- HGR2
    ([72, 71, 82], 0x91),  -- HGR
    ([72, 67, 79, 76, 79, 82, 61], 0x92),  -- HCOLOR=
    ([72, 80, 76, 79, 84], 0x93),  -- HPLOT
    ([68, 82, 65, 87], 0x94),  -- DRAW
    ([88, 68, 82, 65, 87], 0x95),  -- XDRAW
    ([72, 84, 65, 66], 0x96),  -- HTAB
    ([72, 79, 77, 69], 0x97),  -- HOME
    ([82, 79, 84, 61], 0x98),  -- ROT=
    ([83, 67, 65, 76, 69, 61], 0x99),  -- SCALE=
    ([83, 72, 76, 79, 65, 68], 0x9A),  -- SHLOAD
    ([84, 82, 65, 67, 69], 0x9B),  -- TRACE
    ([78, 79, 84, 82, 65, 67, 69], 0x9C),  -- NOTRACE
    ([78, 79, 82, 77, 65, 76], 0x9D),  -- NORMAL
    ([73, 78, 86, 69, 82, 83, 69], 0x9E),  -- INVERSE
    ([70, 76, 65, 83, 72], 0x9F),  -- FLASH
    ([67, 79, 76, 79, 82, 61], 0xA0),  -- COLOR=
    ([80, 79, 80], 0xA1),  -- POP
    ([86, 84, 65, 66], 0xA2),  -- VTAB
    ([72, 73, 77, 69, 77, 58], 0xA3),  -- HIMEM:
    ([76, 79, 77, 69, 77, 58], 0xA4),  -- LOMEM:
    ([79, 78, 69, 82, 82], 0xA5),  -- ONERR
    ([82, 69, 83, 85, 77, 69], 0xA6),  -- RESUME
    ([82, 69, 67, 65, 76, 76], 0xA7),  -- RECALL
    ([83, 84, 79, 82, 69], 0xA8),  -- STORE
    ([83, 80, 69, 69, 68, 61], 0xA9),  -- SPEED=
    ([76, 69, 84], 0xAA),  -- LET
    ([71, 79, 84, 79], 0xAB),  -- GOTO
    ([82, 85, 78], 0xAC),  -- RUN
    ([73, 70], 0xAD),  -- IF
    ([82, 69, 83, 84, 79, 82, 69], 0xAE),  -- RESTORE
    ([38], 0xAF),  -- &
    ([71, 79, 83, 85, 66], 0xB0),  -- GOSUB
    ([82, 69, 84, 85, 82, 78], 0xB1),  -- RETURN
    ([82, 69, 77], 0xB2),  -- REM
    ([83, 84, 79, 80], 0xB3),  -- STOP
    ([79, 78], 0xB4),  -- ON
    ([87, 65, 73, 84], 0xB5),  -- WAIT
    ([76, 79, 65, 68], 0xB6),  -- LOAD
    ([83, 65, 86, 69], 0xB7),  -- SAVE
    ([68, 69, 70], 0xB8),  -- DEF
    ([80, 79, 75, 69], 0xB9),  -- POKE
    ([80, 82, 73, 78, 84], 0xBA),  -- PRINT
    ([67, 79, 78, 84], 0xBB),  -- CONT
    ([76, 73, 83, 84], 0xBC),  -- LIST
    ([67, 76, 69, 65, 82], 0xBD),  -- CLEAR
    ([71, 69, 84], 0xBE),  -- GET
    ([78, 69, 87], 0xBF),  -- NEW
    ([84, 65, 66, 40], 0xC0),  -- TAB(
    ([84, 79], 0xC1),  -- TO
    ([70, 78], 0xC2),  -- FN
    ([83, 80, 67, 40], 0xC3),  -- SPC(
    ([84, 72, 69, 78], 0xC4),  -- THEN
    ([65, 84], 0xC5),  -- AT
    ([78, 79, 84], 0xC6),  -- NOT
    ([83, 84, 69, 80], 0xC7),  -- STEP
    ([43], 0xC8),  -- +
    ([45], 0xC9),  -- -
    ([42], 0xCA),  -- *
    ([47], 0xCB),  -- /
    ([94], 0xCC),  -- ^
    ([65, 78, 68], 0xCD),  -- AND
    ([79, 82], 0xCE),  -- OR
    ([62], 0xCF),  -- >
    ([61], 0xD0),  -- =
    ([60], 0xD1),  -- <
    ([83, 71, 78], 0xD2),  -- SGN
    ([73, 78, 84], 0xD3),  -- INT
    ([65, 66, 83], 0xD4),  -- ABS
    ([85, 83, 82], 0xD5),  -- USR
    ([70, 82, 69], 0xD6),  -- FRE
    ([83, 67, 82, 78, 40], 0xD7),  -- SCRN(
    ([80, 68, 76], 0xD8),  -- PDL
    ([80, 79, 83], 0xD9),  -- POS
    ([83, 81, 82], 0xDA),  -- SQR
    ([82, 78, 68], 0xDB),  -- RND
    ([76, 79, 71], 0xDC),  -- LOG
    ([69, 88, 80], 0xDD),  -- EXP
    ([67, 79, 83], 0xDE),  -- COS
    ([83, 73, 78], 0xDF),  -- SIN
    ([84, 65, 78], 0xE0),  -- TAN
    ([65, 84, 78], 0xE1),  -- ATN
    ([80, 69, 69, 75], 0xE2),  -- PEEK
    ([76, 69, 78], 0xE3),  -- LEN
    ([83, 84, 82, 36], 0xE4),  -- STR$
    ([86, 65, 76], 0xE5),  -- VAL
    ([65, 83, 67], 0xE6),  -- ASC
    ([67, 72, 82, 36], 0xE7),  -- CHR$
    ([76, 69, 70, 84, 36], 0xE8),  -- LEFT$
    ([82, 73, 71, 72, 84, 36], 0xE9),  -- RIGHT$
    ([77, 73, 68, 36], 0xEA)]  -- MID$

/-- Stable insertion sort by descending keyword length: the exact order
of Python's stable `sorted(BASIC_TOKENS.keys(), key=len, reverse=True)`
(ties keep insertion order). -/
def insertByLen (x : List Nat × Nat) : List (List Nat × Nat) → List (List Nat × Nat)
  | [] => [x]
  | b :: bs => if b.1.length ≤ x.1.length then x :: b :: bs else b :: insertByLen x bs

def sortByLenDesc : List (List Nat × Nat) → List (List Nat × Nat)
  | [] => []
  | x :: xs => insertByLen x (sortByLenDesc xs)

/-- The keyword list in the order `tokenize_line` tries matches:
longest first, insertion order among equal lengths. -/
def sortedKeywords : List (List Nat × Nat) := sortByLenDesc basicTokens

/-- Python `str.isalpha` on an ASCII character code. -/
def isAlphaCode (c : Nat) : Bool := (65 ≤ c && c ≤ 90) || (97 ≤ c && c ≤ 122)

/-- The scanning loop of `tokenize_line`: quote toggling, REM
literal mode, longest-keyword match, verbatim characters (upper-cased
when alphabetic).  The fuel starts at the line length; every step
consumes at least one character, so it never runs out. -/
def tokLineAux : Nat → List Nat → Bool → Bool → List Nat
  | 0, _, _, _ => []
  | fuel + 1, rest, inStr, inRem =>
    match rest with
    | [] => []
    | c :: cs =>
      if c = 34 then c :: tokLineAux fuel cs (!inStr) inRem
      else if inStr || inRem then c :: tokLineAux fuel cs inStr inRem
      else if (rest.take 3).map upperCode = [82, 69, 77] then
        0xB2 :: tokLineAux fuel (rest.drop 3) inStr true
      else
        match sortedKeywords.find?
            (fun kw => (rest.take kw.1.length).map upperCode == kw.1) with
        | some kw => kw.2 :: tokLineAux fuel (rest.drop kw.1.length) inStr inRem
        | none => (if isAlphaCode c then upperCode c else c) :: tokLineAux fuel cs inStr inRem

/-- `tokenize_line`: tokenize one line body (no line number). -/
def tokenize_line (line : List Nat) : List Nat := tokLineAux line.length line false false

/-- Python `source.split('\n')` (reproduced on code lists; empty pieces
are preserved). -/
def splitNl : List Nat → List (List Nat)
  | [] => [[]]
  | c :: rest =>
    match splitNl rest with
    | [] => [[]]
    | h :: t => if c = 10 then [] :: h :: t else (c :: h) :: t

/-- Python `str.strip()`: drop ASCII whitespace at both ends. -/
def pyStrip (l : List Nat) : List Nat :=
  ((l.dropWhile pyIsSpace).reverse.dropWhile pyIsSpace).reverse

def isDigitCode (c : Nat) : Bool := 48 ≤ c && c ≤ 57

/-- `int(parts[0])` as used on the line-number token: succeeds exactly
on (nonempty) plain digit strings, the only form the claims exercise;
the extra syntax Python's `int` tolerates (sign, underscores) is not
modelled. -/
def parseDigits (l : List Nat) : Option Nat :=
  if l ≠ [] ∧ l.all isDigitCode then
    some (l.foldl (fun acc c => acc * 10 + (c - 48)) 0)
  else none

/-- `line.split(None, 1)`: the leading non-whitespace word and the
remainder with its leading whitespace removed (empty when absent). -/
def splitFirstWord (l : List Nat) : List Nat × List Nat :=
  (l.takeWhile (fun c => !pyIsSpace c),
    (l.dropWhile (fun c => !pyIsSpace c)).dropWhile pyIsSpace)

/-- The per-line loop of `tokenize_basic`: strip, skip blank and
unnumbered lines, frame each tokenized line as next-line pointer (little
endian), line number (little endian), token bytes and a zero terminator,
advancing the running address; append the final two zero bytes. -/
def tokLines : List (List Nat) → Nat → List Nat
  | [], _ => [0, 0]
  | line :: rest, addr =>
    let l := pyStrip line
    if l = [] then tokLines rest addr
    else
      match parseDigits (splitFirstWord l).1 with
      | none => tokLines rest addr
      | some n =>
        let tl := tokenize_line (splitFirstWord l).2
        let next := addr + (4 + tl.length + 1)
        (next &&& 0xFF) :: ((next >>> 8) &&& 0xFF) :: (n &&& 0xFF) ::
          ((n >>> 8) &&& 0xFF) :: (tl ++ [0] ++ tokLines rest next)

/-- `tokenize_basic`: split the stripped source into lines and tokenize
them starting at the Applesoft program origin 0x0801. -/
def tokenize_basic (source : List Nat) : List Nat :=
  tokLines (splitNl (pyStrip source)) 0x0801

/-! ### Claim C6: tokenizing `10 FOR I = 1 TO 10` -/

/-- C6: tokenizing `10 FOR I = 1 TO 10` produces exactly one line
record: leading pointer 0x0801 + 4 + 12 + 1 = 0x0812 little endian, line
number 10 little endian, then a body that begins with the FOR token
0x81, contains the literal 'I' (0x49), the '=' operator token 0xD0, the
literal ASCII digits 0x31/0x30, and the TO token 0xC1, terminated by a
single zero byte at index 16; the whole stream ends with two further
zero bytes. -/
theorem c6_tokenize_sample :
    tokenize_basic ("10 FOR I = 1 TO 10".toList.map Char.toNat) =
      [0x12, 0x08, 0x0A, 0x00, 0x81, 0x20, 0x49, 0x20, 0xD0, 0x20, 0x31, 0x20,
       0xC1, 0x20, 0x31, 0x30, 0x00, 0x00, 0x00] ∧
    (tokenize_basic ("10 FOR I = 1 TO 10".toList.map Char.toNat)).take 2 =
      [(0x0801 + 4 + 12 + 1) &&& 0xFF, ((0x0801 + 4 + 12 + 1) >>> 8) &&& 0xFF] ∧
    (tokenize_basic ("10 FOR I = 1 TO 10".toList.map Char.toNat)).getD 4 0 = 0x81 ∧
    0x49 ∈ tokenize_basic ("10 FOR I = 1 TO 10".toList.map Char.toNat) ∧
    0xD0 ∈ tokenize_basic ("10 FOR I = 1 TO 10".toList.map Char.toNat) ∧
    0x31 ∈ tokenize_basic ("10 FOR I = 1 TO 10".toList.map Char.toNat) ∧
    0x30 ∈ tokenize_basic ("10 FOR I = 1 TO 10".toList.map Char.toNat) ∧
    0xC1 ∈ tokenize_basic ("10 FOR I = 1 TO 10".toList.map Char.toNat) ∧
    (tokenize_basic ("10 FOR I = 1 TO 10".toList.map Char.toNat)).getD 16 0 = 0 ∧
    (tokenize_basic ("10 FOR I = 1 TO 10".toList.map Char.toNat)).drop 17 = [0, 0] := by
  decide

/-! ### Writing a BASIC program (`save_basic_program`) -/

/-- The track/sector list sector as initialized by `save_basic_program`
(the explicit zero assignments to bytes 0, 1, 5, 6 leave the fresh
`bytearray(256)` all zero). -/
def tsListInit : List Nat := List.replicate 256 0

/-- The data-sector loop of `save_basic_program`: for each 256-byte
chunk of the payload, allocate a sector, record it in the T/S list at
the running offset (a `bytearray` assignment, so an offset beyond the
sector raises), and write the chunk.  The fuel starts at the payload
length; every iteration consumes at least one payload byte, so it never
runs out. -/
def writeChunksF : Nat → Disk → List Nat → Nat → Nat → List Nat →
    Except DiskErr (Disk × List Nat × Nat)
  | _, d, tsl, _, cnt, [] => .ok (d, tsl, cnt)
  | 0, _, _, _, _, _ :: _ => .error .fuelOut
  | fuel + 1, d, tsl, off, cnt, c :: cs =>
    match allocate_sector d with
    | .error e => .error e
    | .ok ((dt, ds), d') =>
      if 255 < off + 1 then .error .byteRange
      else
        match write_sector d' dt ds ((c :: cs).take 256) with
        | .error e => .error e
        | .ok d'' =>
          writeChunksF fuel d'' ((tsl.set off dt).set (off + 1) ds) (off + 2) (cnt + 1)
            ((c :: cs).drop 256)

/-- `save_basic_program`: tokenize, allocate the T/S-list sector, write
the data sectors while building the T/S list (first pair at offset
0x0C), write the T/S list, and add an Applesoft (0x02) catalog entry
whose sector count is the data-sector count plus one.  The sequencing
uses `Except.bind`, modelling Python's statement sequence with
exception propagation; the components of a successful step are accessed
by projection (`r.1` = allocated (track, sector) / output disk, etc.). -/
def save_basic_program (d : Disk) (name : List Nat) (text : List Nat) :
    Except DiskErr (Nat × Disk) :=
  Except.bind (allocate_sector d) (fun r1 =>
    Except.bind (writeChunksF (tokenize_basic text).length r1.2 tsListInit 0x0C 0
        (tokenize_basic text)) (fun r2 =>
      Except.bind (write_sector r2.1 r1.1.1 r1.1.2 r2.2.1) (fun d3 =>
        Except.bind (add_catalog_entry d3 name 0x02 r1.1.1 r1.1.2 (r2.2.2 + 1))
          (fun d4 => Except.ok (r2.2.2 + 1, d4)))))

theorem except_bind_ok {ε α β : Type} (a : α) (f : α → Except ε β) :
    Except.bind (Except.ok a) f = f a := rfl

/-! ### Claim C5: sector accounting of `save_basic_program` -/

theorem bitmapOf_vtocList (vol t : Nat) (ht : t < 35) :
    bitmapOf (vtocList vol) t = if t = 17 then 0 else 0xFFFF := by
  rw [bitmapOf, vtocList_getD, vtocList_getD, if_pos (by omega), if_pos (by omega)]
  have e0 := vtocByte_bitmap vol t 0 ht (by omega)
  have e1 := vtocByte_bitmap vol t 1 ht (by omega)
  rw [show 0x38 + 4 * t = 0x38 + 4 * t + 0 by omega, e0, e1]
  by_cases h : t = 17
  · simp [h]
  · rw [if_neg h, if_neg h, if_neg h, if_pos (by omega), if_pos (by omega)]
    decide

theorem trackOrder_cons :
    trackOrder = 18 :: (List.range' 19 16 ++ (List.range 17).reverse) := by
  decide

theorem alloc_step_track18 (d : Disk) (m s : Nat)
    (hm : bitmapOf (read_sector d 17 0) 18 = m) (hfind : sectorSearch m = some s) :
    allocate_sector d =
      .ok ((18, s), writeSectorOk d 17 0 (vtocUpdate (read_sector d 17 0) 18 s)) := by
  rw [allocate_sector, trackOrder_cons, searchTracks, if_neg (by omega), hm, hfind]

theorem c5_iter_step (dPrev : Disk) (w : List Nat) (m k : Nat)
    (hread : read_sector dPrev 17 0 = w)
    (hbm : bitmapOf w 18 = m) (hfind : sectorSearch m = some k) :
    allocate_sector dPrev =
      .ok ((18, k), writeSectorOk dPrev 17 0 (vtocUpdate w 18 k)) := by
  have h := alloc_step_track18 dPrev m k (by rw [hread, hbm]) hfind
  rw [hread] at h
  exact h

theorem vtocUpdate_getD_low (v : List Nat) (t s j : Nat) (hj : j < 0x38) :
    (vtocUpdate v t s).getD j 0 = v.getD j 0 := by
  rw [vtocUpdate, getD_set_ne _ _ _ _ (by omega), getD_set_ne _ _ _ _ (by omega)]

theorem catReady_write_track_ne (d : Disk) (h : CatReady d) (t s : Nat)
    (data : List Nat) (ht : t ≠ 17) (hs : s < 16) :
    CatReady (writeSectorOk d t s data) := by
  obtain ⟨h1, h2, hsec⟩ := h
  have hne : ∀ x : Nat, (17, x) ≠ (t, s) := by
    intro x he
    rw [Prod.mk.injEq] at he
    exact ht he.1.symm
  refine ⟨?_, ?_, fun x hx1 hx2 => ?_⟩
  · rw [read_sector_write_ne _ _ (by omega) hs (hne 0), h1]
  · rw [read_sector_write_ne _ _ (by omega) hs (hne 0), h2]
  · rw [read_sector_write_ne _ _ (by omega) hs (hne x), hsec x hx1 hx2]

theorem catReady_write_vtoc (d : Disk) (h : CatReady d) (v : List Nat)
    (hv : v.length = 256) (hv1 : v.getD 1 0 = (read_sector d 17 0).getD 1 0)
    (hv2 : v.getD 2 0 = (read_sector d 17 0).getD 2 0) :
    CatReady (writeSectorOk d 17 0 v) := by
  obtain ⟨h1, h2, hsec⟩ := h
  refine ⟨?_, ?_, fun x hx1 hx2 => ?_⟩
  · rw [read_sector_write_same_full _ _ _ _ hv, hv1, h1]
  · rw [read_sector_write_same_full _ _ _ _ hv, hv2, h2]
  · rw [read_sector_write_ne _ _ (by omega) (by omega)
      (by intro he; rw [Prod.mk.injEq] at he; omega), hsec x hx1 hx2]

/-- The VTOC image after the first `k` allocations on a fresh volume:
track 18's sectors 0, …, k-1 marked used. -/
def vtocW (vol : Nat) : Nat → List Nat
  | 0 => vtocList vol
  | k + 1 => vtocUpdate (vtocW vol k) 18 k

theorem vtocW_length (vol k : Nat) : (vtocW vol k).length = 256 := by
  induction k with
  | zero => exact vtocList_length vol
  | succ k ih => rw [vtocW, vtocUpdate_length, ih]

theorem bitmapW1 : ∀ vol, bitmapOf (vtocW vol 1) 18 = 0xFFFE := by
  intro vol
  rw [show vtocW vol 1 = vtocUpdate (vtocW vol 0) 18 0 from rfl,
    bitmapOf_vtocUpdate_self _ (vtocW_length vol 0) 18 0 (by omega),
    show vtocW vol 0 = vtocList vol from rfl, bitmapOf_vtocList vol 18 (by omega),
    if_neg (by omega)]
  decide

theorem bitmapW2 : ∀ vol, bitmapOf (vtocW vol 2) 18 = 0xFFFC := by
  intro vol
  rw [show vtocW vol 2 = vtocUpdate (vtocW vol 1) 18 1 from rfl,
    bitmapOf_vtocUpdate_self _ (vtocW_length vol 1) 18 1 (by omega), bitmapW1 vol]
  decide

theorem bitmapW3 : ∀ vol, bitmapOf (vtocW vol 3) 18 = 0xFFF8 := by
  intro vol
  rw [show vtocW vol 3 = vtocUpdate (vtocW vol 2) 18 2 from rfl,
    bitmapOf_vtocUpdate_self _ (vtocW_length vol 2) 18 2 (by omega), bitmapW2 vol]
  decide

theorem write_sector_ok_of_le (d : Disk) (t s : Nat) (data : List Nat)
    (h : data.length ≤ 256) :
    write_sector d t s data = .ok (writeSectorOk d t s data) := by
  rw [write_sector, if_neg (by omega)]

theorem writeChunksF_nil (fuel : Nat) (d : Disk) (tsl : List Nat) (off cnt : Nat) :
    writeChunksF fuel d tsl off cnt [] = .ok (d, tsl, cnt) := by
  cases fuel <;> rfl

theorem writeChunksF_cons (fuel : Nat) (d : Disk) (tsl : List Nat) (off cnt c : Nat)
    (cs : List Nat) :
    writeChunksF (fuel + 1) d tsl off cnt (c :: cs) =
      match allocate_sector d with
      | .error e => .error e
      | .ok ((dt, ds), d') =>
        if 255 < off + 1 then .error .byteRange
        else
          match write_sector d' dt ds ((c :: cs).take 256) with
          | .error e => .error e
          | .ok d'' =>
            writeChunksF fuel d'' ((tsl.set off dt).set (off + 1) ds) (off + 2) (cnt + 1)
              ((c :: cs).drop 256) := rfl

theorem catReady_write_vtocUpdate (d : Disk) (h : CatReady d) (w : List Nat)
    (t s : Nat) (hread : read_sector d 17 0 = w) (hwlen : w.length = 256) :
    CatReady (writeSectorOk d 17 0 (vtocUpdate w t s)) := by
  apply catReady_write_vtoc d h _ (by rw [vtocUpdate_length, hwlen])
  · rw [vtocUpdate_getD_low _ _ _ _ (by omega), hread]
  · rw [vtocUpdate_getD_low _ _ _ _ (by omega), hread]

theorem writeChunksF_step (fuel : Nat) (d : Disk) (tsl : List Nat) (off cnt c : Nat)
    (cs : List Nat) (dt ds : Nat) (d' : Disk)
    (ha : allocate_sector d = .ok ((dt, ds), d'))
    (hoff : off + 1 ≤ 255) (hchunk : ((c :: cs).take 256).length ≤ 256) :
    writeChunksF (fuel + 1) d tsl off cnt (c :: cs) =
      writeChunksF fuel (writeSectorOk d' dt ds ((c :: cs).take 256))
        ((tsl.set off dt).set (off + 1) ds) (off + 2) (cnt + 1) ((c :: cs).drop 256) := by
  rw [writeChunksF_cons]
  simp only [ha, if_neg (show ¬ (255 < off + 1) by omega),
    write_sector_ok_of_le d' dt ds ((c :: cs).take 256) hchunk]

/-- C5: on a freshly formatted volume, writing a program whose
tokenized payload is exactly 256·3 = 768 bytes (name restricted to
ASCII so the stored bytes are in range) succeeds with sector count
4 = ceil(768/256) + 1, the catalog then holds exactly one entry whose
recorded sector count is 4, and exactly the four sectors
(18,0) … (18,3) — one T/S index sector plus three data sectors — have
been allocated in the VTOC bitmap. -/
theorem c5_write_program_sectors (vol : Nat) (name text : List Nat)
    (hname : ∀ c ∈ name, c < 128) (hlen : (tokenize_basic text).length = 768) :
    ∃ d', save_basic_program (format vol) name text = .ok (4, d') ∧
      (∃ e, catalog d' = [e] ∧ e.sectors = 4) ∧
      ∀ t s, t < 35 → s < 16 →
        bitFreeP (read_sector d' 17 0) (t, s) =
          (decide (t ≠ 17) && !(decide (t = 18) && decide (s < 4))) := by
  unfold save_basic_program
  have hv0 := read_format_vtoc vol
  have hbm0 : bitmapOf (read_sector (format vol) 17 0) 18 = 0xFFFF := by
    rw [hv0, bitmapOf_vtocList vol 18 (by omega), if_neg (by omega)]
  have ha0 := alloc_step_track18 (format vol) 0xFFFF 0 hbm0 (by decide)
  rw [hv0] at ha0
  rw [show vtocUpdate (vtocList vol) 18 0 = vtocW vol 1 from rfl] at ha0
  simp only [ha0, except_bind_ok]
  rw [hlen]
  obtain ⟨c1, r1, htk1⟩ := List.exists_cons_of_ne_nil
    (show tokenize_basic text ≠ [] by intro hnil; rw [hnil] at hlen; simp at hlen)
  rw [htk1] at hlen ⊢
  set d1 := writeSectorOk (format vol) 17 0 (vtocW vol 1) with hd1
  -- the three data-sector iterations, as one equation about the loop
  have hr1 : read_sector d1 17 0 = vtocW vol 1 := by
    rw [hd1]
    exact read_sector_write_same_full _ _ _ _ (vtocW_length vol 1)
  have ha1 := c5_iter_step d1 (vtocW vol 1) 0xFFFE 1 hr1 (bitmapW1 vol) (by decide)
  rw [show vtocUpdate (vtocW vol 1) 18 1 = vtocW vol 2 from rfl] at ha1
  set d2 := writeSectorOk d1 17 0 (vtocW vol 2) with hd2
  set d3 := writeSectorOk d2 18 1 ((c1 :: r1).take 256) with hd3
  have hlen2 : ((c1 :: r1).drop 256).length = 512 := by
    rw [List.length_drop, hlen]
  obtain ⟨c2, r2, htk2⟩ := List.exists_cons_of_ne_nil
    (show (c1 :: r1).drop 256 ≠ [] by intro hnil; rw [hnil] at hlen2; simp at hlen2)
  rw [htk2] at hlen2
  have hr2 : read_sector d3 17 0 = vtocW vol 2 := by
    rw [hd3, hd2, read_sector_write_ne _ _ (by omega) (by omega) (by decide)]
    exact read_sector_write_same_full _ _ _ _ (vtocW_length vol 2)
  have ha2 := c5_iter_step d3 (vtocW vol 2) 0xFFFC 2 hr2 (bitmapW2 vol) (by decide)
  rw [show vtocUpdate (vtocW vol 2) 18 2 = vtocW vol 3 from rfl] at ha2
  set d4 := writeSectorOk d3 17 0 (vtocW vol 3) with hd4
  set d5 := writeSectorOk d4 18 2 ((c2 :: r2).take 256) with hd5
  have hlen3 : ((c2 :: r2).drop 256).length = 256 := by
    rw [List.length_drop, hlen2]
  obtain ⟨c3, r3, htk3⟩ := List.exists_cons_of_ne_nil
    (show (c2 :: r2).drop 256 ≠ [] by intro hnil; rw [hnil] at hlen3; simp at hlen3)
  rw [htk3] at hlen3
  have hr3 : read_sector d5 17 0 = vtocW vol 3 := by
    rw [hd5, hd4, read_sector_write_ne _ _ (by omega) (by omega) (by decide)]
    exact read_sector_write_same_full _ _ _ _ (vtocW_length vol 3)
  have ha3 := c5_iter_step d5 (vtocW vol 3) 0xFFF8 3 hr3 (bitmapW3 vol) (by decide)
  rw [show vtocUpdate (vtocW vol 3) 18 3 = vtocW vol 4 from rfl] at ha3
  set d6 := writeSectorOk d5 17 0 (vtocW vol 4) with hd6
  set d7 := writeSectorOk d6 18 3 ((c3 :: r3).take 256) with hd7
  set tslF := (((((tsListInit.set 0x0C 18).set (0x0C + 1) 1).set (0x0C + 2) 18).set
    (0x0C + 2 + 1) 2).set (0x0C + 2 + 2) 18).set (0x0C + 2 + 2 + 1) 3 with htsl
  have hrun : writeChunksF 768 d1 tsListInit 0x0C 0 (c1 :: r1) = .ok (d7, tslF, 3) := by
    rw [show (768 : Nat) = 767 + 1 from rfl,
      writeChunksF_step 767 d1 tsListInit 0x0C 0 c1 r1 18 1 d2 ha1 (by omega)
        (by rw [List.length_take]; omega),
      ← hd3, htk2,
      show (767 : Nat) = 766 + 1 from rfl,
      writeChunksF_step 766 d3 _ _ _ c2 r2 18 2 d4 ha2 (by omega)
        (by rw [List.length_take]; omega),
      ← hd5, htk3,
      show (766 : Nat) = 765 + 1 from rfl,
      writeChunksF_step 765 d5 _ _ _ c3 r3 18 3 d6 ha3 (by omega)
        (by rw [List.length_take]; omega),
      ← hd7,
      show (c3 :: r3).drop 256 = [] from
        List.eq_nil_of_length_eq_zero (by rw [List.length_drop, hlen3]),
      writeChunksF_nil]
  rw [hrun, except_bind_ok]
  simp only []
  rw [write_sector_ok_of_le d7 18 0 tslF (by rw [htsl]; simp [tsListInit]),
    except_bind_ok]
  set d8 := writeSectorOk d7 18 0 tslF with hd8
  -- catalog area is intact on d8
  have hcr1 : CatReady d1 := by
    rw [hd1, show vtocW vol 1 = vtocUpdate (vtocW vol 0) 18 0 from rfl]
    exact catReady_write_vtocUpdate (format vol) (catReady_format vol) _ 18 0 hv0
      (vtocW_length vol 0)
  have hcr2 : CatReady d2 := by
    rw [hd2, show vtocW vol 2 = vtocUpdate (vtocW vol 1) 18 1 from rfl]
    exact catReady_write_vtocUpdate d1 hcr1 _ 18 1 hr1 (vtocW_length vol 1)
  have hcr3 : CatReady d3 := by
    rw [hd3]
    exact catReady_write_track_ne d2 hcr2 18 1 _ (by omega) (by omega)
  have hcr4 : CatReady d4 := by
    rw [hd4, show vtocW vol 3 = vtocUpdate (vtocW vol 2) 18 2 from rfl]
    exact catReady_write_vtocUpdate d3 hcr3 _ 18 2 hr2 (vtocW_length vol 2)
  have hcr5 : CatReady d5 := by
    rw [hd5]
    exact catReady_write_track_ne d4 hcr4 18 2 _ (by omega) (by omega)
  have hcr6 : CatReady d6 := by
    rw [hd6, show vtocW vol 4 = vtocUpdate (vtocW vol 3) 18 3 from rfl]
    exact catReady_write_vtocUpdate d5 hcr5 _ 18 3 hr3 (vtocW_length vol 3)
  have hcr7 : CatReady d7 := by
    rw [hd7]
    exact catReady_write_track_ne d6 hcr6 18 3 _ (by omega) (by omega)
  have hcr8 : CatReady d8 := by
    rw [hd8]
    exact catReady_write_track_ne d7 hcr7 18 0 _ (by omega) (by omega)
  have hok : entryBytesOk 18 0 0x02 name = true :=
    entryBytesOk_of_ascii 18 0 0x02 name (by omega) (by omega) (by omega) hname
  have hadd := add_on_catReady d8 hcr8 name 0x02 18 0 4 hok
  rw [hadd, except_bind_ok]
  refine ⟨writeSectorOk d8 17 15
    (fillEntry (catalogSectorList 15) 0x0B 18 0 0x02 4 name), rfl, ?_, ?_⟩
  · rw [catalog_after_fill d8 hcr8 _
        (by rw [fillEntry_length, catalogSectorList_length])
        (fillEntry_ptr1 18 0 0x02 4 name)
        (fillEntry_ptr2 18 0 0x02 4 name),
      entriesOf_fill 18 0 0x02 4 name (by omega) (by omega)]
    exact ⟨_, rfl, (bytes_roundtrip_16 4 (by omega)).trans (by norm_num)⟩
  · intro t s ht hs
    have hrd' : read_sector (writeSectorOk d8 17 15
        (fillEntry (catalogSectorList 15) 0x0B 18 0 0x02 4 name))
        17 0 = vtocW vol 4 := by
      rw [read_sector_write_ne _ _ (by omega) (by omega) (by decide), hd8,
        read_sector_write_ne _ _ (by omega) (by omega) (by decide), hd7,
        read_sector_write_ne _ _ (by omega) (by omega) (by decide), hd6]
      exact read_sector_write_same_full _ _ _ _ (vtocW_length vol 4)
    rw [hrd', show vtocW vol 4 = vtocUpdate (vtocW vol 3) 18 3 from rfl,
      bitFreeP_vtocUpdate _ (vtocW_length vol 3) 18 3 t s (by omega) hs,
      show vtocW vol 3 = vtocUpdate (vtocW vol 2) 18 2 from rfl,
      bitFreeP_vtocUpdate _ (vtocW_length vol 2) 18 2 t s (by omega) hs,
      show vtocW vol 2 = vtocUpdate (vtocW vol 1) 18 1 from rfl,
      bitFreeP_vtocUpdate _ (vtocW_length vol 1) 18 1 t s (by omega) hs,
      show vtocW vol 1 = vtocUpdate (vtocW vol 0) 18 0 from rfl,
      bitFreeP_vtocUpdate _ (vtocW_length vol 0) 18 0 t s (by omega) hs,
      show vtocW vol 0 = vtocList vol from rfl, ← hv0,
      bitFreeP_format vol t s ht hs]
    by_cases h18 : t = 18
    · subst h18
      by_cases hs0 : s = 0
      · subst hs0; simp
      · by_cases hs1 : s = 1
        · subst hs1; simp
        · by_cases hs2 : s = 2
          · subst hs2; simp
          · by_cases hs3 : s = 3
            · subst hs3; simp
            · have hs4 : ¬ s < 4 := by omega
              simp [hs0, hs1, hs2, hs3, hs4]
    · simp [h18]

/-- Witness for C5 at a concrete input: the program `10 REM` followed
by 760 `A`s tokenizes to exactly 768 bytes. -/
theorem c5_write_program_sectors_witness :
    (∀ c ∈ ([71] : List Nat), c < 128) ∧
    (tokenize_basic ([49, 48, 32, 82, 69, 77] ++ List.replicate 760 65)).length = 768 ∧
    (∃ d', save_basic_program (format 254) [71]
        ([49, 48, 32, 82, 69, 77] ++ List.replicate 760 65) = .ok (4, d') ∧
      (∃ e, catalog d' = [e] ∧ e.sectors = 4) ∧
      ∀ t s, t < 35 → s < 16 →
        bitFreeP (read_sector d' 17 0) (t, s) =
          (decide (t ≠ 17) && !(decide (t = 18) && decide (s < 4)))) :=
  ⟨by decide, by decide,
    c5_write_program_sectors 254 [71] ([49, 48, 32, 82, 69, 77] ++ List.replicate 760 65)
      (by decide) (by decide)⟩

/-! ### Claim C10: the catalog chain structure is preserved by every operation -/

/-- The collaborator-facing mutating operations of the core. -/
inductive Op
  | alloc
  | addEntry (name : List Nat) (ft tst tss secs : Nat)
  | saveProg (name text : List Nat)

def runOp (d : Disk) : Op → Except DiskErr Disk
  | .alloc => (allocate_sector d).map (fun r => r.2)
  | .addEntry name ft tst tss secs => add_catalog_entry d name ft tst tss secs
  | .saveProg name text => (save_basic_program d name text).map (fun r => r.2)

def runOps : Disk → List Op → Except DiskErr Disk
  | d, [] => .ok d
  | d, op :: rest =>
    match runOp d op with
    | .error e => .error e
    | .ok d' => runOps d' rest

/-- The coordinates visited by the catalog-chain walk (the loop of
`catalog` and `add_catalog_entry`), from the VTOC's head pointer. -/
def chainAux (d : Disk) : Nat → Nat → Nat → List (Nat × Nat)
  | 0, _, _ => []
  | fuel + 1, t, s =>
    if t = 0 then []
    else (t, s) ::
      chainAux d fuel ((read_sector d t s).getD 1 0) ((read_sector d t s).getD 2 0)

def chainCoords (d : Disk) : List (Nat × Nat) :=
  chainAux d 560 ((read_sector d 17 0).getD 1 0) ((read_sector d 17 0).getD 2 0)

/-- The catalog-chain shape established by `format`: head pointer
(17, 15), each sector (17, s) for 2 ≤ s ≤ 15 chaining to (17, s-1), and
(17, 1) terminating with (0, 0). -/
def ChainInv (d : Disk) : Prop :=
  (read_sector d 17 0).getD 1 0 = 17 ∧ (read_sector d 17 0).getD 2 0 = 15 ∧
  (∀ s, 2 ≤ s → s ≤ 15 → (read_sector d 17 s).getD 1 0 = 17 ∧
    (read_sector d 17 s).getD 2 0 = s - 1) ∧
  (read_sector d 17 1).getD 1 0 = 0 ∧ (read_sector d 17 1).getD 2 0 = 0

theorem chainInv_format (vol : Nat) : ChainInv (format vol) := by
  refine ⟨?_, ?_, fun s h1 h2 => ⟨?_, ?_⟩, ?_, ?_⟩
  · rw [read_format_vtoc, vtocList_getD]
    norm_num [vtocByte, vtocHeader]
  · rw [read_format_vtoc, vtocList_getD]
    norm_num [vtocByte, vtocHeader]
  · rw [read_format_catalog vol s (by omega) h2, catalogSectorList_getD,
      if_pos (by omega), catalogSectorByte, if_pos rfl, if_pos (by omega)]
  · rw [read_format_catalog vol s (by omega) h2, catalogSectorList_getD,
      if_pos (by omega), catalogSectorByte, if_neg (by omega), if_pos rfl,
      if_pos (by omega)]
  · rw [read_format_catalog vol 1 (by omega) (by omega), catalogSectorList_getD,
      if_pos (by omega), catalogSectorByte, if_pos rfl, if_neg (by omega)]
  · rw [read_format_catalog vol 1 (by omega) (by omega), catalogSectorList_getD,
      if_pos (by omega), catalogSectorByte, if_neg (by omega), if_pos rfl,
      if_neg (by omega)]

theorem chainInv_write_track_ne (d : Disk) (h : ChainInv d) (t s : Nat)
    (data : List Nat) (ht : t ≠ 17) (hs : s < 16) :
    ChainInv (writeSectorOk d t s data) := by
  obtain ⟨h1, h2, h3, h4, h5⟩ := h
  have hne : ∀ x : Nat, (17, x) ≠ (t, s) := by
    intro x he
    rw [Prod.mk.injEq] at he
    exact ht he.1.symm
  refine ⟨?_, ?_, fun x hx1 hx2 => ?_, ?_, ?_⟩
  · rw [read_sector_write_ne _ _ (by omega) hs (hne 0), h1]
  · rw [read_sector_write_ne _ _ (by omega) hs (hne 0), h2]
  · rw [read_sector_write_ne _ _ (by omega) hs (hne x)]
    exact h3 x hx1 hx2
  · rw [read_sector_write_ne _ _ (by omega) hs (hne 1), h4]
  · rw [read_sector_write_ne _ _ (by omega) hs (hne 1), h5]

theorem chainInv_write_vtoc (d : Disk) (h : ChainInv d) (v : List Nat)
    (hv : v.length = 256) (hv1 : v.getD 1 0 = (read_sector d 17 0).getD 1 0)
    (hv2 : v.getD 2 0 = (read_sector d 17 0).getD 2 0) :
    ChainInv (writeSectorOk d 17 0 v) := by
  obtain ⟨h1, h2, h3, h4, h5⟩ := h
  have hother : ∀ x, 1 ≤ x → x ≤ 15 →
      read_sector (writeSectorOk d 17 0 v) 17 x = read_sector d 17 x := by
    intro x hx1 hx2
    exact read_sector_write_ne _ _ (by omega) (by omega)
      (by intro he; rw [Prod.mk.injEq] at he; omega)
  refine ⟨?_, ?_, fun x hx1 hx2 => ?_, ?_, ?_⟩
  · rw [read_sector_write_same_full _ _ _ _ hv, hv1, h1]
  · rw [read_sector_write_same_full _ _ _ _ hv, hv2, h2]
  · rw [hother x (by omega) hx2]
    exact h3 x hx1 hx2
  · rw [hother 1 (by omega) (by omega), h4]
  · rw [hother 1 (by omega) (by omega), h5]

theorem chainInv_write_catalog (d : Disk) (h : ChainInv d) (s : Nat)
    (hs1 : 1 ≤ s) (hs15 : s ≤ 15) (cd' : List Nat) (hlen : cd'.length = 256)
    (hp1 : cd'.getD 1 0 = (read_sector d 17 s).getD 1 0)
    (hp2 : cd'.getD 2 0 = (read_sector d 17 s).getD 2 0) :
    ChainInv (writeSectorOk d 17 s cd') := by
  obtain ⟨h1, h2, h3, h4, h5⟩ := h
  have hother : ∀ x, x ≠ s → x ≤ 15 →
      read_sector (writeSectorOk d 17 s cd') 17 x = read_sector d 17 x := by
    intro x hx1 hx2
    exact read_sector_write_ne _ _ (by omega) (by omega)
      (by intro he; rw [Prod.mk.injEq] at he; omega)
  have hsame : read_sector (writeSectorOk d 17 s cd') 17 s = cd' :=
    read_sector_write_same_full _ _ _ _ hlen
  refine ⟨?_, ?_, fun x hx1 hx2 => ?_, ?_, ?_⟩
  · rw [hother 0 (by omega) (by omega), h1]
  · rw [hother 0 (by omega) (by omega), h2]
  · by_cases hxs : x = s
    · subst hxs
      rw [hsame, hp1, hp2]
      exact h3 x hx1 hx2
    · rw [hother x hxs hx2]
      exact h3 x hx1 hx2
  · by_cases h1s : 1 = s
    · subst h1s
      rw [hsame, hp1, h4]
    · rw [hother 1 h1s (by omega), h4]
  · by_cases h1s : 1 = s
    · subst h1s
      rw [hsame, hp2, h5]
    · rw [hother 1 h1s (by omega), h5]

theorem chainInv_alloc (d : Disk) (p : Nat × Nat) (d' : Disk)
    (halloc : allocate_sector d = .ok (p, d')) (h : ChainInv d) : ChainInv d' := by
  obtain ⟨_, _, _, hw⟩ := alloc_ok_spec d p d' halloc
  rw [hw]
  exact chainInv_write_vtoc d h _
    (by rw [vtocUpdate_length, read_sector_length])
    (vtocUpdate_getD_low _ _ _ _ (by omega))
    (vtocUpdate_getD_low _ _ _ _ (by omega))

theorem findSlotAux_bounds (cd : List Nat) : ∀ (fuel i off : Nat), i + fuel ≤ 7 →
    findSlotAux cd fuel i = some off → 0x0B ≤ off ∧ off + 0x23 ≤ 256 := by
  intro fuel
  induction fuel with
  | zero =>
    intro i off _ hfind
    simp [findSlotAux] at hfind
  | succ fuel ih =>
    intro i off hle hfind
    rw [findSlotAux] at hfind
    by_cases hc : cd.getD (0x0B + i * 0x23) 0 = 0 || cd.getD (0x0B + i * 0x23) 0 = 0xFF
    · rw [if_pos hc, Option.some.injEq] at hfind
      omega
    · rw [if_neg hc] at hfind
      exact ih (i + 1) off (by omega) hfind

theorem findSlot_bounds (cd : List Nat) (off : Nat) (h : findSlot cd = some off) :
    0x0B ≤ off ∧ off + 0x23 ≤ 256 :=
  findSlotAux_bounds cd 7 0 off (by omega) h

theorem fillEntry_getD_ptr (cd : List Nat) (off tst tss ft secs : Nat)
    (name : List Nat) (hoff11 : 0x0B ≤ off) (hoff : off + 0x23 ≤ cd.length)
    (j : Nat) (hj : j < 3) :
    (fillEntry cd off tst tss ft secs name).getD j 0 = cd.getD j 0 := by
  rw [fillEntry_getD cd off tst tss ft secs name hoff j, if_neg (by omega),
    if_neg (by omega), if_neg (by omega), if_neg (by omega), if_neg (by omega),
    if_neg (by omega)]

theorem chainInv_addAux (d : Disk) (name : List Nat) (ft tst tss secs : Nat)
    (h : ChainInv d) : ∀ (fuel t s : Nat) (d' : Disk),
    (t = 0 ∨ (t = 17 ∧ 1 ≤ s ∧ s ≤ 15)) →
    addAux d name ft tst tss secs fuel t s = .ok d' → ChainInv d' := by
  intro fuel
  induction fuel with
  | zero =>
    intro t s d' _ hadd
    simp [addAux] at hadd
  | succ fuel ih =>
    intro t s d' hts hadd
    rw [addAux] at hadd
    by_cases ht0 : t = 0
    · rw [if_pos ht0] at hadd
      cases hadd
    · rw [if_neg ht0] at hadd
      obtain ⟨ht17, hs1, hs15⟩ : t = 17 ∧ 1 ≤ s ∧ s ≤ 15 := by
        rcases hts with h0 | h1
        · exact absurd h0 ht0
        · exact h1
      subst ht17
      cases hfs : findSlot (read_sector d 17 s) with
      | some off =>
        simp only [hfs] at hadd
        by_cases hok : entryBytesOk tst tss ft name = true
        · rw [if_pos hok, Except.ok.injEq] at hadd
          obtain ⟨hb1, hb2⟩ := findSlot_bounds _ off hfs
          subst hadd
          apply chainInv_write_catalog d h s hs1 hs15 _
            (by rw [fillEntry_length, read_sector_length])
          · exact fillEntry_getD_ptr _ _ _ _ _ _ _ hb1
              (by rw [read_sector_length]; omega) 1 (by omega)
          · exact fillEntry_getD_ptr _ _ _ _ _ _ _ hb1
              (by rw [read_sector_length]; omega) 2 (by omega)
        · rw [if_neg hok] at hadd
          cases hadd
      | none =>
        simp only [hfs] at hadd
        obtain ⟨_, _, h3, h4, h5⟩ := h
        by_cases hs2 : 2 ≤ s
        · obtain ⟨hp1, hp2⟩ := h3 s hs2 hs15
          rw [hp1, hp2] at hadd
          exact ih 17 (s - 1) d' (Or.inr ⟨rfl, by omega, by omega⟩) hadd
        · have hs1' : s = 1 := by omega
          subst hs1'
          rw [h4, h5] at hadd
          exact ih 0 0 d' (Or.inl rfl) hadd

theorem chainInv_add (d : Disk) (name : List Nat) (ft tst tss secs : Nat)
    (d' : Disk) (hadd : add_catalog_entry d name ft tst tss secs = .ok d')
    (h : ChainInv d) : ChainInv d' := by
  rw [add_catalog_entry, h.1, h.2.1] at hadd
  exact chainInv_addAux d name ft tst tss secs h 560 17 15 d'
    (Or.inr ⟨rfl, by omega, by omega⟩) hadd

theorem chainInv_writeChunksF : ∀ (fuel : Nat) (d : Disk)
    (tsl : List Nat) (off cnt : Nat) (rest : List Nat)
    (res : Disk × List Nat × Nat),
    writeChunksF fuel d tsl off cnt rest = .ok res → ChainInv d →
    ChainInv res.1 := by
  intro fuel
  induction fuel with
  | zero =>
    intro d tsl off cnt rest res hw h
    cases rest with
    | nil =>
      rw [writeChunksF_nil, Except.ok.injEq] at hw
      rw [← hw]
      exact h
    | cons c cs => simp [writeChunksF] at hw
  | succ fuel ih =>
    intro d tsl off cnt rest res hw h
    cases rest with
    | nil =>
      rw [writeChunksF_nil, Except.ok.injEq] at hw
      rw [← hw]
      exact h
    | cons c cs =>
      rw [writeChunksF_cons] at hw
      cases halloc : allocate_sector d with
      | error e =>
        simp only [halloc] at hw
        cases hw
      | ok r =>
        simp only [halloc] at hw
        by_cases hoff : 255 < off + 1
        · rw [if_pos hoff] at hw
          cases hw
        · rw [if_neg hoff] at hw
          rw [write_sector_ok_of_le r.2 r.1.1 r.1.2 ((c :: cs).take 256)
            (by simp)] at hw
          have hinv' : ChainInv r.2 := chainInv_alloc d r.1 r.2 halloc h
          have hmem := (alloc_ok_spec d r.1 r.2 halloc).1
          have hb := (mem_scanOrder_iff r.1).mp hmem
          have hinv'' : ChainInv (writeSectorOk r.2 r.1.1 r.1.2 ((c :: cs).take 256)) :=
            chainInv_write_track_ne r.2 hinv' r.1.1 r.1.2 _ hb.2.1 hb.2.2
          exact ih _ _ _ _ _ res hw hinv''

theorem except_bind_eq_ok {ε α β : Type} (x : Except ε α) (f : α → Except ε β)
    (b : β) (h : Except.bind x f = .ok b) : ∃ a, x = .ok a ∧ f a = .ok b := by
  cases x with
  | error e => simp [Except.bind] at h
  | ok a => exact ⟨a, rfl, h⟩

theorem chainInv_save (d : Disk) (name text : List Nat) (res : Nat × Disk)
    (hs : save_basic_program d name text = .ok res) (h : ChainInv d) :
    ChainInv res.2 := by
  rw [save_basic_program] at hs
  obtain ⟨r1, h1, hs⟩ := except_bind_eq_ok _ _ _ hs
  obtain ⟨r2, h2, hs⟩ := except_bind_eq_ok _ _ _ hs
  obtain ⟨d3, h3, hs⟩ := except_bind_eq_ok _ _ _ hs
  obtain ⟨d4, h4, hs⟩ := except_bind_eq_ok _ _ _ hs
  rw [Except.ok.injEq] at hs
  rw [← hs]
  have hinv1 : ChainInv r1.2 := chainInv_alloc d r1.1 r1.2 h1 h
  have hinv2 : ChainInv r2.1 :=
    chainInv_writeChunksF _ _ _ _ _ _ r2 h2 hinv1
  have hmem := (alloc_ok_spec d r1.1 r1.2 h1).1
  have hb := (mem_scanOrder_iff r1.1).mp hmem
  have hd3 : d3 = writeSectorOk r2.1 r1.1.1 r1.1.2 r2.2.1 := by
    rw [write_sector] at h3
    by_cases hlen : 256 < r2.2.1.length
    · rw [if_pos hlen] at h3
      cases h3
    · rw [if_neg hlen, Except.ok.injEq] at h3
      exact h3.symm
  have hinv3 : ChainInv d3 := by
    rw [hd3]
    exact chainInv_write_track_ne r2.1 hinv2 r1.1.1 r1.1.2 _ hb.2.1 hb.2.2
  exact chainInv_add d3 name 0x02 r1.1.1 r1.1.2 (r2.2.2 + 1) d4 h4 hinv3

theorem chainAux_zero_track (d : Disk) (s : Nat) : ∀ fuel, chainAux d fuel 0 s = [] := by
  intro fuel
  cases fuel with
  | zero => rfl
  | succ f => rw [chainAux, if_pos rfl]

theorem chainAux_of_inv (d : Disk) (h : ChainInv d) : ∀ (s : Nat), 1 ≤ s → s ≤ 15 →
    ∀ fuel, s + 1 ≤ fuel →
    chainAux d fuel 17 s = (List.range s).map (fun k => (17, s - k)) := by
  intro s
  induction s with
  | zero => intro h1; omega
  | succ s ih =>
    intro _ hs15 fuel hfuel
    cases fuel with
    | zero => omega
    | succ f =>
      rw [chainAux, if_neg (by omega)]
      by_cases hs1 : 1 ≤ s
      · obtain ⟨hp1, hp2⟩ := h.2.2.1 (s + 1) (by omega) hs15
        rw [hp1, hp2, show s + 1 - 1 = s by omega,
          ih hs1 (by omega) f (by omega), List.range_succ_eq_map, List.map_cons,
          List.map_map]
        refine List.cons_eq_cons.mpr ⟨by rw [Nat.sub_zero], ?_⟩
        apply List.map_congr_left
        intro k _
        simp [Function.comp, Nat.succ_sub_succ]
      · have hs0 : s = 0 := by omega
        subst hs0
        rw [h.2.2.2.1, h.2.2.2.2, chainAux_zero_track]
        decide

theorem chainCoords_of_inv (d : Disk) (h : ChainInv d) :
    chainCoords d = (List.range 15).map (fun k => (17, 15 - k)) := by
  rw [chainCoords, h.1, h.2.1]
  exact chainAux_of_inv d h 15 (by omega) (by omega) 560 (by omega)

theorem chainInv_runOps : ∀ (ops : List Op) (d d' : Disk),
    runOps d ops = .ok d' → ChainInv d → ChainInv d' := by
  intro ops
  induction ops with
  | nil =>
    intro d d' h hinv
    rw [runOps, Except.ok.injEq] at h
    rw [← h]
    exact hinv
  | cons op rest ih =>
    intro d d' h hinv
    rw [runOps] at h
    cases hop : runOp d op with
    | error e =>
      simp only [hop] at h
      cases h
    | ok dm =>
      simp only [hop] at h
      apply ih dm d' h
      cases op with
      | alloc =>
        rw [runOp] at hop
        cases halloc : allocate_sector d with
        | error e =>
          rw [halloc] at hop
          simp [Except.map] at hop
        | ok r =>
          rw [halloc] at hop
          simp only [Except.map, Except.ok.injEq] at hop
          rw [← hop]
          exact chainInv_alloc d r.1 r.2 halloc hinv
      | addEntry n ft tst tss secs =>
        rw [runOp] at hop
        exact chainInv_add d n ft tst tss secs dm hop hinv
      | saveProg n txt =>
        rw [runOp] at hop
        cases hsave : save_basic_program d n txt with
        | error e =>
          rw [hsave] at hop
          simp [Except.map] at hop
        | ok r =>
          rw [hsave] at hop
          simp only [Except.map, Except.ok.injEq] at hop
          rw [← hop]
          exact chainInv_save d n txt r hsave hinv

/-- C10: after `format` and any sequence of successful collaborator-facing
operations (`allocate_sector`, `add_catalog_entry`, `save_basic_program`),
every catalog sector (17, s) for 2 ≤ s ≤ 15 still carries next-pointer
(17, s-1) and sector (17, 1) still carries (0, 0), so the catalog-chain
walk from the VTOC head pointer visits exactly the 15 sectors
(17, 15), (17, 14), …, (17, 1) and terminates. -/
theorem c10_chain_invariant (vol : Nat) (ops : List Op) (d' : Disk)
    (h : runOps (format vol) ops = .ok d') :
    (∀ s, 2 ≤ s → s ≤ 15 → (read_sector d' 17 s).getD 1 0 = 17 ∧
      (read_sector d' 17 s).getD 2 0 = s - 1) ∧
    (read_sector d' 17 1).getD 1 0 = 0 ∧ (read_sector d' 17 1).getD 2 0 = 0 ∧
    chainCoords d' = [(17, 15), (17, 14), (17, 13), (17, 12), (17, 11), (17, 10),
      (17, 9), (17, 8), (17, 7), (17, 6), (17, 5), (17, 4), (17, 3), (17, 2),
      (17, 1)] ∧ (chainCoords d').length = 15 := by
  have hinv : ChainInv d' := chainInv_runOps ops (format vol) d' h (chainInv_format vol)
  have hlist : chainCoords d' = [(17, 15), (17, 14), (17, 13), (17, 12), (17, 11),
      (17, 10), (17, 9), (17, 8), (17, 7), (17, 6), (17, 5), (17, 4), (17, 3),
      (17, 2), (17, 1)] := by
    rw [chainCoords_of_inv d' hinv]
    decide
  exact ⟨hinv.2.2.1, hinv.2.2.2.1, hinv.2.2.2.2, hlist, by rw [hlist]; rfl⟩

theorem c10_chain_invariant_witness :
    runOps (format 254) [] = .ok (format 254) ∧
    ((∀ s, 2 ≤ s → s ≤ 15 →
        (read_sector (format 254) 17 s).getD 1 0 = 17 ∧
        (read_sector (format 254) 17 s).getD 2 0 = s - 1) ∧
      (read_sector (format 254) 17 1).getD 1 0 = 0 ∧
      (read_sector (format 254) 17 1).getD 2 0 = 0 ∧
      chainCoords (format 254) = [(17, 15), (17, 14), (17, 13), (17, 12), (17, 11),
        (17, 10), (17, 9), (17, 8), (17, 7), (17, 6), (17, 5), (17, 4), (17, 3),
        (17, 2), (17, 1)] ∧ (chainCoords (format 254)).length = 15) :=
  ⟨rfl, c10_chain_invariant 254 [] (format 254) rfl⟩
